import Mathlib

/-!
Verification development for the DriveMindr file-triage engine.

The Python sources (`drivemindr/config.py`, `safety.py`, `classifier.py`,
`database.py`, `executor.py`, `undo.py`) are shallowly embedded: pure
functions become Lean functions, the stateful execution/undo machinery
becomes explicit state passing over a small filesystem model, SQLite
tables become lists of records.  Confidences and JSON numbers are modelled
as exact fractions (the Python code only ever parses decimal literals and
compares them against the decimal thresholds 0.4 / 0.7 / 0.85, and exact
fractions represent every decimal literal and decide those comparisons the
same way); SHA-256 digests are abstracted as the exact file content (a
`Nat`), which is a collision-free abstraction of a digest.
-/

namespace DriveMindr

/-! ## Exact model of the Python floats appearing in the pipeline

A value is a fraction `num / den`; every constructor in this file produces
a positive power-of-ten denominator (the shape of a parsed decimal
literal).  Comparisons cross-multiply, which agrees with the numeric order
of the decimals being modelled. -/

structure PyFloat where
  num : Int
  den : Nat
deriving DecidableEq, Repr

namespace PyFloat

def lt (a b : PyFloat) : Bool := a.num * (b.den : Int) < b.num * (a.den : Int)

def le (a b : PyFloat) : Bool := a.num * (b.den : Int) ≤ b.num * (a.den : Int)

/-- Numeric (cross-multiplied) equality of two fractions. -/
def eqv (a b : PyFloat) : Bool := a.num * (b.den : Int) = b.num * (a.den : Int)

/-- Python `min(a, b)`: the first argument wins ties. -/
def pymin (a b : PyFloat) : PyFloat := if a.le b then a else b

/-- Python `max(a, b)`: the first argument wins ties. -/
def pymax (a b : PyFloat) : PyFloat := if b.le a then a else b

end PyFloat

/-! ## Python string / `pathlib.PureWindowsPath` primitives

`PureWindowsPath` splits a path on both separators, keeps the drive as the
leading component, drops empty components, and compares case-insensitively
(`relative_to` succeeds iff the casefolded parts of the root are a prefix of
the casefolded parts of the candidate).  The model below targets
drive-letter paths, the only shape appearing in the repository. -/

def isWinSep (c : Char) : Bool := c = '\\' || c = '/'

/-- Lowercase a string character-wise (ASCII, as `str.lower` behaves on the
ASCII data of this repository).  Defined over the character list so that it
is kernel-reducible. -/
def pyLower (s : String) : String := String.mk (s.data.map Char.toLower)

/-- Uppercase a string character-wise (ASCII `str.upper`). -/
def pyUpper (s : String) : String := String.mk (s.data.map Char.toUpper)

/-- Maximal runs of non-separator characters (split on separators with empty
components dropped). -/
def winPartsAux : List Char → List Char → List (List Char)
  | [], acc => if acc = [] then [] else [acc.reverse]
  | c :: cs, acc =>
    if isWinSep c then
      if acc = [] then winPartsAux cs [] else acc.reverse :: winPartsAux cs []
    else winPartsAux cs (c :: acc)

/-- Components of a Windows path: split on `\` and `/`, dropping empties.
`"C:\\Windows\\foo"` gives `["C:", "Windows", "foo"]` (the drive root is a
single component, as in `PureWindowsPath.parts`). -/
def winParts (s : String) : List String :=
  (winPartsAux s.data []).map String.mk

/-- `PureWindowsPath(s).name`: the last component, `""` for a bare drive. -/
def winName (s : String) : String :=
  match (winParts s).reverse with
  | [] => ""
  | p :: _ => if p.data.getLast? = some ':' then "" else p

/-- Index of the last occurrence of `c`, as in Python `str.rfind`. -/
def rfindIdx (c : Char) : List Char → Option Nat
  | [] => none
  | x :: xs =>
    match rfindIdx c xs with
    | some i => some (i + 1)
    | none => if x = c then some 0 else none

/-- `PureWindowsPath(s).suffix`: pathlib returns `name[i:]` for the last dot
index `i` when `0 < i < len(name) - 1`, else `""` (so `Makefile` and `.env`
both have an empty suffix). -/
def winSuffix (s : String) : String :=
  let n := (winName s).data
  match rfindIdx '.' n with
  | some i => if 0 < i ∧ i + 1 < n.length then String.mk (n.drop i) else ""
  | none => ""

/-- Does `pat` occur as a contiguous sublist of `s`? -/
def subOccurs (pat : List Char) : List Char → Bool
  | [] => pat.isPrefixOf []
  | c :: cs => pat.isPrefixOf (c :: cs) || subOccurs pat cs

/-- Python `pat in s` substring test. -/
def strContainsSub (s pat : String) : Bool :=
  subOccurs pat.data s.data

/-! ## `config.py` constants -/

def PROTECTED_PATHS : List String := [
  "C:\\Windows",
  "C:\\Program Files\\WindowsApps",
  "C:\\Program Files\\Windows Defender",
  "C:\\Program Files\\Windows Defender Advanced Threat Protection",
  "C:\\Program Files\\Windows Mail",
  "C:\\Program Files\\Windows Media Player",
  "C:\\Program Files\\Windows Multimedia Platform",
  "C:\\Program Files\\Windows NT",
  "C:\\Program Files\\Windows Photo Viewer",
  "C:\\Program Files\\Windows Portable Devices",
  "C:\\Program Files\\Windows Security",
  "C:\\Program Files\\Windows Sidebar",
  "C:\\ProgramData\\Microsoft",
  "C:\\Program Files (x86)\\Windows Defender",
  "C:\\Recovery",
  "C:\\$Recycle.Bin",
  "C:\\System Volume Information",
  "C:\\Boot",
  "C:\\bootmgr",
  "C:\\BOOTNXT"]

def PROTECTED_OWNERS : List String := [
  "TrustedInstaller",
  "NT SERVICE\\TrustedInstaller",
  "SYSTEM",
  "NT AUTHORITY\\SYSTEM"]

def DOCUMENT_EXTENSIONS : List String := [
  ".doc", ".docx", ".pdf", ".txt", ".md", ".rtf", ".odt", ".tex", ".pages",
  ".xls", ".xlsx", ".csv", ".ods", ".numbers",
  ".ppt", ".pptx", ".odp", ".key",
  ".epub", ".mobi"]

def PHOTO_VIDEO_EXTENSIONS : List String := [
  ".jpg", ".jpeg", ".png", ".gif", ".bmp", ".tiff", ".tif",
  ".webp", ".svg", ".raw", ".cr2", ".nef", ".heic", ".heif",
  ".mp4", ".mov", ".avi", ".mkv", ".wmv", ".flv", ".webm", ".m4v",
  ".mp3", ".wav", ".flac", ".aac", ".ogg", ".wma", ".m4a"]

def SOURCE_CODE_EXTENSIONS : List String := [
  ".py", ".js", ".ts", ".jsx", ".tsx", ".java", ".cpp", ".c", ".h",
  ".hpp", ".cs", ".go", ".rs", ".rb", ".php", ".swift", ".kt",
  ".scala", ".r", ".m", ".sql", ".sh", ".bash", ".ps1", ".bat",
  ".cmd", ".yaml", ".yml", ".json", ".xml", ".toml", ".ini", ".cfg",
  ".html", ".css", ".scss", ".less", ".vue", ".svelte"]

def SENSITIVE_FILE_PATTERNS : List String := [
  ".env", ".env.local", ".env.production", ".env.development",
  "_key", "_secret", "_token", "credentials", "secret",
  "private_key", "id_rsa", "id_ed25519", ".pem", ".key", ".pfx", ".p12"]

/-- Union of the three guardian families (membership-only use, so a list
models the frozenset). -/
def GUARDIAN_EXTENSIONS : List String :=
  DOCUMENT_EXTENSIONS ++ PHOTO_VIDEO_EXTENSIONS ++ SOURCE_CODE_EXTENSIONS

/-- `0.7` as the exact fraction of its decimal literal. -/
def CONFIDENCE_AUTO_APPROVE : PyFloat := ⟨7, 10⟩

/-- `0.4` as the exact fraction of its decimal literal. -/
def CONFIDENCE_UNCERTAIN : PyFloat := ⟨4, 10⟩

/-- `0.85` as the exact fraction of its decimal literal. -/
def CONFIDENCE_DELETE_MIN : PyFloat := ⟨85, 100⟩

def OLLAMA_HOST : String := "http://127.0.0.1:11434"
def OLLAMA_MODEL : String := "llama3.1:8b"

def D_DRIVE_STRUCTURE : List (String × String) := [
  ("apps", "D:\\Apps"),
  ("documents", "D:\\Documents"),
  ("media_photos", "D:\\Media\\Photos"),
  ("media_videos", "D:\\Media\\Videos"),
  ("media_music", "D:\\Media\\Music"),
  ("projects", "D:\\Projects"),
  ("archive", "D:\\Archive"),
  ("drivemindr", "D:\\DriveMindr")]

/-! ## `safety.py` -/

structure SafetyVerdict where
  original_action : String
  final_action : String
  confidence : PyFloat
  is_protected : Bool := false
  is_guardian_protected : Bool := false
  is_sensitive : Bool := false
  overridden : Bool := false
  override_reason : String := ""
  needs_review : Bool := false
  warnings : List String := []
deriving Repr, DecidableEq

namespace SafetyEngine

/-- Lowercased components of a path, for the case-insensitive
`PureWindowsPath` comparison. -/
def partsLower (s : String) : List String := (winParts s).map pyLower

/-- `SafetyEngine.is_path_protected`: `relative_to` succeeds iff the
casefolded parts of a protected root are a prefix of the casefolded parts
of the candidate. -/
def is_path_protected (file_path : String) : Bool :=
  PROTECTED_PATHS.any (fun root => (partsLower root).isPrefixOf (partsLower file_path))

/-- `SafetyEngine.is_delete_action`. -/
def is_delete_action (action : String) : Bool :=
  pyUpper action = "DELETE_JUNK" || pyUpper action = "DELETE_UNUSED" ||
    pyUpper action = "DELETE"

/-- `SafetyEngine.is_sensitive_file`: lowercase the path, take its leaf
name, test each lowercased sensitive pattern for substring containment. -/
def is_sensitive_file (file_path : String) : Bool :=
  let name := winName (pyLower file_path)
  (SENSITIVE_FILE_PATTERNS.map pyLower).any (fun pat => strContainsSub name pat)

/-- The `owner and owner.lower() in self._protected_owners_lower` test of
`_check_protected_owner` (`None` and `""` are falsy in Python). -/
def owner_protected (owner : Option String) : Bool :=
  match owner with
  | none => false
  | some o =>
    if o = "" then false
    else (PROTECTED_OWNERS.map pyLower).contains (pyLower o)

/-- Layer 1: `_check_protected_path`. -/
def check_protected_path (file_path : String) (v : SafetyVerdict) : SafetyVerdict :=
  if is_path_protected file_path then
    { v with is_protected := true, final_action := "KEEP", overridden := true,
             override_reason := "Hardcoded protected path — cannot be modified",
             warnings := v.warnings ++ ["PROTECTED PATH: " ++ file_path] }
  else v

/-- Layer 1b: `_check_protected_owner`. -/
def check_protected_owner (owner : Option String) (v : SafetyVerdict) : SafetyVerdict :=
  if owner_protected owner then
    { v with is_protected := true, final_action := "KEEP", overridden := true,
             override_reason := "Protected owner: " ++ owner.getD "",
             warnings := v.warnings ++ ["PROTECTED OWNER: " ++ owner.getD ""] }
  else v

/-- The `extension or PureWindowsPath(file_path).suffix` expression in
`_check_guardian` (`None` and `""` both fall back to the path suffix). -/
def effective_ext (file_path : String) (extension : Option String) : String :=
  match extension with
  | some e => if e = "" then winSuffix file_path else e
  | none => winSuffix file_path

/-- Layer 2: `_check_guardian` — only intervenes on delete actions. -/
def check_guardian (file_path : String) (extension : Option String)
    (v : SafetyVerdict) : SafetyVerdict :=
  if ¬ is_delete_action v.final_action then v
  else
    let ext := effective_ext file_path extension
    if ext ≠ "" ∧ GUARDIAN_EXTENSIONS.contains (pyLower ext) then
      { v with is_guardian_protected := true, final_action := "KEEP", overridden := true,
               override_reason := "Document Guardian — " ++ ext ++
                 " files cannot be deleted, only moved/archived",
               needs_review := true,
               warnings := v.warnings ++ ["GUARDIAN: " ++ ext ++ " file protected from deletion"] }
    else v

/-- Layer 2b: `_check_sensitive`. -/
def check_sensitive (file_path : String) (v : SafetyVerdict) : SafetyVerdict :=
  if is_sensitive_file file_path then
    let v1 : SafetyVerdict := { v with
      is_sensitive := true,
      warnings := v.warnings ++ ["SENSITIVE: " ++ file_path ++ " matches sensitive pattern"] }
    if is_delete_action v1.final_action then
      { v1 with final_action := "KEEP", overridden := true,
                override_reason := "Sensitive file — cannot be deleted",
                needs_review := true }
    else v1
  else v

/-- Layer 3: `_check_confidence` (the numeric interpolation of the Python
log/reason strings is elided; no verified property inspects them). -/
def check_confidence (v : SafetyVerdict) : SafetyVerdict :=
  if is_delete_action v.final_action && v.confidence.lt CONFIDENCE_DELETE_MIN then
    { v with final_action := "KEEP", overridden := true,
             override_reason := "Delete requires higher confidence",
             needs_review := true }
  else if v.confidence.lt CONFIDENCE_UNCERTAIN then
    { v with needs_review := true,
             warnings := v.warnings ++ ["UNCERTAIN: low confidence"] }
  else if v.confidence.lt CONFIDENCE_AUTO_APPROVE then
    { v with needs_review := true }
  else v

/-- `SafetyEngine.check`: all layers in order, short-circuiting after
Layer 1 / Layer 1b when the verdict is protected. -/
def check (file_path : String) (ai_action : String) (ai_confidence : PyFloat)
    (owner : Option String) (extension : Option String) : SafetyVerdict :=
  let v0 : SafetyVerdict :=
    { original_action := ai_action, final_action := ai_action, confidence := ai_confidence }
  let v1 := check_protected_path file_path v0
  if v1.is_protected then v1
  else
    let v2 := check_protected_owner owner v1
    if v2.is_protected then v2
    else check_confidence (check_sensitive file_path (check_guardian file_path extension v2))

end SafetyEngine

/-! ## `executor.py` destination helpers -/

/-- `_categorize_destination(path, extension)`: map a file to its
`D_DRIVE_STRUCTURE` key (`extension` is the nullable `files.extension`
column; `None` and `""` are both falsy in the Python guard). -/
def categorize_destination (path : String) (extension : Option String) : String :=
  let ext := match extension with
    | some e => if e = "" then "" else pyLower e
    | none => ""
  let path_lower := pyLower path
  if DOCUMENT_EXTENSIONS.contains ext then "documents"
  else if PHOTO_VIDEO_EXTENSIONS.contains ext then
    if [".mp3", ".wav", ".flac", ".aac", ".ogg", ".wma", ".m4a"].contains ext then
      "media_music"
    else if [".mp4", ".mov", ".avi", ".mkv", ".wmv", ".flv", ".webm", ".m4v"].contains ext then
      "media_videos"
    else "media_photos"
  else if SOURCE_CODE_EXTENSIONS.contains ext then "projects"
  else if strContainsSub path_lower "project" || strContainsSub path_lower "repos" ||
      strContainsSub path_lower "github" then "projects"
  else "documents"

/-- Join a base path and components with the native separator (rendered
with backslashes, the on-disk shape on the Windows target). -/
def joinWin (base : String) (parts : List String) : String :=
  parts.foldl (fun acc p => acc ++ "\\" ++ p) base

/-- `_compute_dest_path(source_path, category)`: take the source parts; if
there are more than three, drop the first three (drive, `Users`, user name)
and reattach the remainder under the category root, otherwise use just the
leaf name.  The category root defaults to the `documents` root for unknown
keys, as `dict.get` does in the source. -/
def compute_dest_path (source_path category : String) : String :=
  let parts := winParts source_path
  let base := (D_DRIVE_STRUCTURE.lookup category).getD "D:\\Documents"
  if 3 < parts.length then joinWin base (parts.drop 3)
  else joinWin base [winName source_path]

/-! ## `database.py` Catalog rows and the approved-action view -/

structure FileRow where
  id : Nat
  path : String
  name : String
  extension : Option String
  owner : Option String
deriving Repr, DecidableEq

structure ClassificationRow where
  file_id : Nat
  action : String
  confidence : PyFloat
deriving Repr, DecidableEq

structure DecisionRow where
  file_id : Nat
  decision : String
  new_action : Option String
deriving Repr, DecidableEq

structure Catalog where
  files : List FileRow
  classifications : List ClassificationRow
  user_decisions : List DecisionRow
deriving Repr, DecidableEq

/-- The unique classification joined to a file (`UNIQUE(file_id)`). -/
def Catalog.classificationFor (cat : Catalog) (fid : Nat) : Option ClassificationRow :=
  cat.classifications.find? (fun c => c.file_id == fid)

/-- The unique user decision joined to a file (`UNIQUE(file_id)`). -/
def Catalog.decisionFor (cat : Catalog) (fid : Nat) : Option DecisionRow :=
  cat.user_decisions.find? (fun d => d.file_id == fid)

structure PlanRow where
  id : Nat
  path : String
  extension : Option String
  final_action : String
deriving Repr, DecidableEq

/-- Modelled from the spec: the final action a user decision leaves on a
file.  `Database.save_user_decision` / the decision semantics are absent
from the source tree (only callers and tests exist); per the spec, `CHANGE`
substitutes the user replacement, `PROTECT` forces `KEEP`, anything else
keeps the classification action. -/
def decidedFinalAction (c : ClassificationRow) (d : DecisionRow) : String :=
  if d.decision = "CHANGE" then d.new_action.getD c.action
  else if d.decision = "PROTECT" then "KEEP"
  else c.action

/-- Modelled from the spec: the plan row `Database.get_approved_actions`
yields for one file.  The method itself is absent from the source tree
(only its callers in `executor.py`/`dashboard.py` and its tests exist);
per the spec, the plan is the join of files, classifications and user
decisions restricted to decision ∈ {APPROVE, CHANGE}. -/
def Catalog.planRowFor (cat : Catalog) (f : FileRow) : Option PlanRow :=
  match cat.classificationFor f.id with
  | none => none
  | some c =>
    match cat.decisionFor f.id with
    | none => none
    | some d =>
      if d.decision = "APPROVE" ∨ d.decision = "CHANGE" then
        some ⟨f.id, f.path, f.extension, decidedFinalAction c d⟩
      else none

/-- Modelled from the spec: `Database.get_approved_actions` (see
`planRowFor`). -/
def Catalog.get_approved_actions (cat : Catalog) : List PlanRow :=
  cat.files.filterMap cat.planRowFor

/-! ## Filesystem model

State the execution and undo engines mutate.  `faulty` is the
failure-injection surface: an OS call touching a faulty path raises
(permission errors, sharing violations), which is what the `try/except`
blocks of the Python code observe.  Directory creation
(`mkdir(parents=True, exist_ok=True)`) is modelled as a no-op: parent
directories are tracked implicitly. -/

inductive FsNode where
  | file (content : Nat)
  | dir
  | link
deriving Repr, DecidableEq

structure Fs where
  entries : List (String × FsNode)
  faulty : List String
deriving Repr, DecidableEq

namespace Fs

def node (fs : Fs) (p : String) : Option FsNode :=
  (fs.entries.find? (fun e => e.1 == p)).map Prod.snd

def pathExists (fs : Fs) (p : String) : Bool := (fs.node p).isSome

def is_file (fs : Fs) (p : String) : Bool :=
  match fs.node p with
  | some (.file _) => true
  | _ => false

def is_dir (fs : Fs) (p : String) : Bool := fs.node p = some .dir

def is_link (fs : Fs) (p : String) : Bool := fs.node p = some .link

/-- `undo.file_checksum(path)`: `None` when the file is missing, is a
directory, or opening/reading raises (`faulty`); otherwise the digest,
abstracted as the exact content. -/
def file_checksum (fs : Fs) (p : String) : Option Nat :=
  match fs.node p with
  | some (.file c) => if fs.faulty.contains p then none else some c
  | _ => none

/-- `shutil.move(src, dst)`: raises on a missing source or a faulty
endpoint, else renames (replacing any entry already at `dst`). -/
def move (fs : Fs) (src dst : String) : Except Unit Fs :=
  if fs.faulty.contains src || fs.faulty.contains dst then .error ()
  else
    match fs.node src with
    | none => .error ()
    | some n =>
      .ok ⟨(fs.entries.filter (fun e => e.1 ≠ src ∧ e.1 ≠ dst)) ++ [(dst, n)], fs.faulty⟩

/-- `Path.unlink()`: raises on a missing or faulty path. -/
def unlink (fs : Fs) (p : String) : Except Unit Fs :=
  if fs.faulty.contains p || !(fs.pathExists p) then .error ()
  else .ok ⟨fs.entries.filter (fun e => e.1 ≠ p), fs.faulty⟩

/-- Is some other entry strictly below directory `p`? -/
def hasChild (fs : Fs) (p : String) : Bool :=
  fs.entries.any (fun e => (p ++ "\\").data.isPrefixOf e.1.data)

/-- `Path.rmdir()`: raises on a missing or faulty path or a non-empty
directory. -/
def rmdir (fs : Fs) (p : String) : Except Unit Fs :=
  if fs.faulty.contains p || !(fs.pathExists p) || fs.hasChild p then .error ()
  else .ok ⟨fs.entries.filter (fun e => e.1 ≠ p), fs.faulty⟩

/-- Append a file entry (used by the archive writer). -/
def addFile (fs : Fs) (p : String) (content : Nat) : Fs :=
  ⟨fs.entries ++ [(p, .file content)], fs.faulty⟩

end Fs

/-! ## `undo.py` action log and UndoManager -/

structure LogEntry where
  id : Nat
  file_id : Option Nat
  action : String
  source_path : String
  dest_path : Option String
  checksum_before : Option Nat := none
  checksum_after : Option Nat := none
  batch_id : Option String := none
  undone : Bool := false
deriving Repr, DecidableEq

namespace UndoManager

/-- `UndoManager.log_action`: append-only insert; the AUTOINCREMENT id is
`length + 1`, which is fresh because the log never shrinks. -/
def log_action (log : List LogEntry) (file_id : Option Nat) (action : String)
    (source_path : String) (dest_path : Option String) (batch_id : Option String)
    (checksum_before checksum_after : Option Nat) : List LogEntry :=
  log ++ [{ id := log.length + 1, file_id := file_id, action := action,
            source_path := source_path, dest_path := dest_path,
            checksum_before := checksum_before, checksum_after := checksum_after,
            batch_id := batch_id, undone := false }]

/-- The `ORDER BY id DESC` order of `get_batch_actions`. -/
def undoOrder (a b : LogEntry) : Prop := b.id ≤ a.id

instance : DecidableRel undoOrder := fun a b => Nat.decLe b.id a.id

instance : IsTotal LogEntry undoOrder :=
  ⟨fun a b => (Nat.le_total b.id a.id).imp id id⟩

instance : IsTrans LogEntry undoOrder :=
  ⟨fun _ _ _ h1 h2 => Nat.le_trans h2 h1⟩

/-- `UndoManager.get_batch_actions`: the rows of the batch not yet undone,
by descending id (newest first). -/
def get_batch_actions (log : List LogEntry) (batch : String) : List LogEntry :=
  List.insertionSort undoOrder
    (log.filter (fun e => e.batch_id == some batch && e.undone == false))

/-- `_mark_undone`: `UPDATE action_log SET undone = 1 WHERE id = ?`. -/
def mark_undone (log : List LogEntry) (log_id : Nat) : List LogEntry :=
  log.map (fun e => if e.id = log_id then { e with undone := true } else e)

/-- `_undo_move`: move the destination back to the source.  `false` means
skipped; an `Except.error` carries the filesystem at the point the raised
OS call left it. -/
def undo_move (log : List LogEntry) (fs : Fs) (log_id : Nat) (source : String)
    (dest : Option String) (dry_run : Bool) : Except Fs (Bool × List LogEntry × Fs) :=
  match dest with
  | none => .ok (false, log, fs)
  | some d =>
    if !(fs.pathExists d) then .ok (false, log, fs)
    else if dry_run then .ok (true, log, fs)
    else
      match fs.move d source with
      | .error _ => .error fs
      | .ok fs1 => .ok (true, mark_undone log log_id, fs1)

/-- `_undo_delete`: restore the trash copy to the source (same shape as
`_undo_move`). -/
def undo_delete (log : List LogEntry) (fs : Fs) (log_id : Nat) (source : String)
    (dest : Option String) (dry_run : Bool) : Except Fs (Bool × List LogEntry × Fs) :=
  match dest with
  | none => .ok (false, log, fs)
  | some d =>
    if !(fs.pathExists d) then .ok (false, log, fs)
    else if dry_run then .ok (true, log, fs)
    else
      match fs.move d source with
      | .error _ => .error fs
      | .ok fs1 => .ok (true, mark_undone log log_id, fs1)

/-- `_undo_archive`: delete the archive file; originals were never
removed. -/
def undo_archive (log : List LogEntry) (fs : Fs) (log_id : Nat)
    (dest : Option String) (dry_run : Bool) : Except Fs (Bool × List LogEntry × Fs) :=
  match dest with
  | none => .ok (false, log, fs)
  | some d =>
    if !(fs.pathExists d) then .ok (false, log, fs)
    else if dry_run then .ok (true, log, fs)
    else
      match fs.unlink d with
      | .error _ => .error fs
      | .ok fs1 => .ok (true, mark_undone log log_id, fs1)

/-- The junction-removal phase of `_undo_symlink`: unlink a link at the
source, `rmdir` a directory, leave anything else alone; an error carries
the filesystem at the raise. -/
def removeJunction (fs : Fs) (source : String) : Except Fs Fs :=
  if fs.pathExists source then
    if fs.is_link source then
      match fs.unlink source with
      | .error _ => .error fs
      | .ok fs1 => .ok fs1
    else if fs.is_dir source then
      match fs.rmdir source with
      | .error _ => .error fs
      | .ok fs1 => .ok fs1
    else .ok fs
  else .ok fs

/-- The restore phase of `_undo_symlink`: move the target tree back when
it still exists, then mark the entry undone. -/
def restoreFromTarget (log : List LogEntry) (fs1 : Fs) (log_id : Nat)
    (source d : String) : Except Fs (Bool × List LogEntry × Fs) :=
  if fs1.pathExists d then
    match fs1.move d source with
    | .error _ => .error fs1
    | .ok fs2 => .ok (true, mark_undone log log_id, fs2)
  else .ok (true, mark_undone log log_id, fs1)

/-- `_undo_symlink`: remove the junction (modelled as a link node) at the
source, move the target tree back, mark undone. -/
def undo_symlink (log : List LogEntry) (fs : Fs) (log_id : Nat) (source : String)
    (dest : Option String) (dry_run : Bool) : Except Fs (Bool × List LogEntry × Fs) :=
  match dest with
  | none => .ok (false, log, fs)
  | some d =>
    if dry_run then .ok (true, log, fs)
    else
      match removeJunction fs source with
      | .error fsx => .error fsx
      | .ok fs1 => restoreFromTarget log fs1 log_id source d

/-- `_undo_single`: dispatch on the logged action kind; unknown kinds warn
and count as skipped. -/
def undo_single (log : List LogEntry) (fs : Fs) (e : LogEntry) (dry_run : Bool) :
    Except Fs (Bool × List LogEntry × Fs) :=
  if e.action = "MOVED" then undo_move log fs e.id e.source_path e.dest_path dry_run
  else if e.action = "DELETED" then undo_delete log fs e.id e.source_path e.dest_path dry_run
  else if e.action = "ARCHIVED" then undo_archive log fs e.id e.dest_path dry_run
  else if e.action = "SYMLINKED" then undo_symlink log fs e.id e.source_path e.dest_path dry_run
  else .ok (false, log, fs)

structure UndoSummary where
  undone : Nat
  skipped : Nat
  failed : Nat
deriving Repr, DecidableEq

/-- The `for entry in actions` loop of `undo_batch`: a reversal that
raises is counted as failed and the loop continues. -/
def undoLoop (dry_run : Bool) :
    List LogEntry → List LogEntry → Fs → UndoSummary × List LogEntry × Fs
  | [], log, fs => (⟨0, 0, 0⟩, log, fs)
  | e :: rest, log, fs =>
    match undo_single log fs e dry_run with
    | .ok (true, log1, fs1) =>
      let r := undoLoop dry_run rest log1 fs1
      ({ r.1 with undone := r.1.undone + 1 }, r.2)
    | .ok (false, log1, fs1) =>
      let r := undoLoop dry_run rest log1 fs1
      ({ r.1 with skipped := r.1.skipped + 1 }, r.2)
    | .error fs1 =>
      let r := undoLoop dry_run rest log fs1
      ({ r.1 with failed := r.1.failed + 1 }, r.2)

/-- `UndoManager.undo_batch`. -/
def undo_batch (log : List LogEntry) (fs : Fs) (batch : String) (dry_run : Bool) :
    UndoSummary × List LogEntry × Fs :=
  let actions := get_batch_actions log batch
  if actions = [] then (⟨0, 0, 0⟩, log, fs)
  else undoLoop dry_run actions log fs

/-- `PureWindowsPath(s).stem`: the leaf name with the suffix removed. -/
def winStem (s : String) : String :=
  let n := (winName s).data
  String.mk (n.take (n.length - (winSuffix s).data.length))

/-- The `k`-th candidate trash name: the original leaf first, then
`stem_k` with the suffix re-attached. -/
def trashCandidate (base original : String) (k : Nat) : String :=
  if k = 0 then base ++ "\\" ++ winName original
  else base ++ "\\" ++ winStem original ++ "_" ++ toString k ++ winSuffix original

/-- The collision loop of `get_trash_path`, fuelled by more candidates
than the filesystem has entries (so a free name always exists). -/
def freshCandidate (fs : Fs) (base original : String) : Nat → Nat → String
  | 0, k => trashCandidate base original k
  | fuel + 1, k =>
    let c := trashCandidate base original k
    if fs.pathExists c then freshCandidate fs base original fuel (k + 1) else c

/-- `UndoManager.get_trash_path`: `<trash_dir>/<batch_id>/<leaf>`, with a
`_N` counter appended to the stem on collision. -/
def get_trash_path (fs : Fs) (trash_dir : String) (original : String)
    (batch_id : String) : String :=
  freshCandidate fs (trash_dir ++ "\\" ++ batch_id) original (fs.entries.length + 1) 0

end UndoManager

/-! ## `executor.py` ExecutionEngine -/

structure EngineState where
  moved : Nat := 0
  deleted : Nat := 0
  archived : Nat := 0
  symlinked : Nat := 0
  skipped : Nat := 0
  errors : Nat := 0
deriving Repr, DecidableEq

structure ExecSummary where
  batch_id : Option String
  moved : Nat
  deleted : Nat
  archived : Nat
  symlinked : Nat
  skipped : Nat
  errors : Nat
deriving Repr, DecidableEq

namespace ExecutionEngine

/-- `_summary(batch_id)`: read the engine counters (they are instance
state, never reset by `execute_plan`). -/
def summary (st : EngineState) (batch_id : Option String) : ExecSummary :=
  ⟨batch_id, st.moved, st.deleted, st.archived, st.symlinked, st.skipped, st.errors⟩

/-- The `AppMigrator.migrate_app` callable (directory `MOVE_APP` only):
success flag plus the filesystem and log it leaves behind.  Kept abstract —
no verified property depends on the junction driver internals. -/
def MigrateFn : Type :=
  Fs → List LogEntry → Option Nat → String → Option String → Bool →
    Bool × Fs × List LogEntry

/-- The checksum `_execute_move` records for a path:
`file_checksum(p) if p.is_file() else None`. -/
def moveChecksum (fs : Fs) (p : String) : Option Nat :=
  if fs.is_file p then fs.file_checksum p else none

/-- `_execute_move`.  An `Except.error` is an exception escaping to the
dispatch loop; it carries the filesystem and log at the raise point. -/
def execute_move (migrate : MigrateFn) (st : EngineState) (fs : Fs)
    (log : List LogEntry) (file_id : Nat) (source_path : String)
    (extension : Option String) (action : String) (batch_id : String)
    (dry_run : Bool) :
    Except (Fs × List LogEntry) (EngineState × Fs × List LogEntry) :=
  if action = "MOVE_APP" ∧ fs.is_dir source_path then
    let r := migrate fs log (some file_id) source_path (some batch_id) dry_run
    if r.1 then .ok ({ st with symlinked := st.symlinked + 1 }, r.2)
    else .ok ({ st with errors := st.errors + 1 }, r.2)
  else
    let category := categorize_destination source_path extension
    let dest := compute_dest_path source_path category
    if dry_run then .ok ({ st with moved := st.moved + 1 }, fs, log)
    else if !(fs.pathExists source_path) then
      .ok ({ st with skipped := st.skipped + 1 }, fs, log)
    else
      let checksum_before := moveChecksum fs source_path
      match fs.move source_path dest with
      | .error _ => .error (fs, log)
      | .ok fs1 =>
        let checksum_after := moveChecksum fs1 dest
        if checksum_before.isSome && checksum_after.isSome &&
            checksum_before != checksum_after then
          match fs1.move dest source_path with
          | .error _ => .error (fs1, log)
          | .ok fs2 => .ok ({ st with errors := st.errors + 1 }, fs2, log)
        else
          .ok ({ st with moved := st.moved + 1 }, fs1,
            UndoManager.log_action log (some file_id) "MOVED" source_path (some dest)
              (some batch_id) checksum_before checksum_after)

/-- `_execute_delete`: soft delete into the trash tree. -/
def execute_delete (trash_dir : String) (st : EngineState) (fs : Fs)
    (log : List LogEntry) (file_id : Nat) (source_path : String)
    (batch_id : String) (dry_run : Bool) :
    Except (Fs × List LogEntry) (EngineState × Fs × List LogEntry) :=
  let trash_dest := UndoManager.get_trash_path fs trash_dir source_path batch_id
  if dry_run then .ok ({ st with deleted := st.deleted + 1 }, fs, log)
  else if !(fs.pathExists source_path) then
    .ok ({ st with skipped := st.skipped + 1 }, fs, log)
  else
    let checksum_before :=
      if fs.is_file source_path then fs.file_checksum source_path else none
    match fs.move source_path trash_dest with
    | .error _ => .error (fs, log)
    | .ok fs1 =>
      .ok ({ st with deleted := st.deleted + 1 }, fs1,
        UndoManager.log_action log (some file_id) "DELETED" source_path
          (some trash_dest) (some batch_id) checksum_before none)

/-- The `k`-th candidate archive name (`<stem>.zip`, then `<stem>_k.zip`). -/
def archiveCandidate (archive_dir source : String) (k : Nat) : String :=
  if k = 0 then archive_dir ++ "\\" ++ UndoManager.winStem source ++ ".zip"
  else archive_dir ++ "\\" ++ UndoManager.winStem source ++ "_" ++ toString k ++ ".zip"

/-- The archive collision loop (`while archive_path.exists()`), fuelled by
more candidates than the filesystem has entries. -/
def freshArchivePath (fs : Fs) (archive_dir source : String) : Nat → Nat → String
  | 0, k => archiveCandidate archive_dir source k
  | fuel + 1, k =>
    let c := archiveCandidate archive_dir source k
    if fs.pathExists c then freshArchivePath fs archive_dir source fuel (k + 1) else c

/-- `_execute_archive`: write a zip next to the monthly archive directory;
the zip write failure (`OSError`/`BadZipFile`) is caught locally and
counted as an error; the zip bytes are abstracted as content `0`.
`year_month` stands for `datetime.now().strftime("%Y-%m")`. -/
def execute_archive (year_month : String) (st : EngineState) (fs : Fs)
    (log : List LogEntry) (file_id : Nat) (source_path : String)
    (batch_id : String) (dry_run : Bool) :
    Except (Fs × List LogEntry) (EngineState × Fs × List LogEntry) :=
  let archive_dir := ((D_DRIVE_STRUCTURE.lookup "archive").getD "D:\\Archive") ++
    "\\" ++ year_month
  if dry_run then .ok ({ st with archived := st.archived + 1 }, fs, log)
  else if !(fs.pathExists source_path) then
    .ok ({ st with skipped := st.skipped + 1 }, fs, log)
  else
    let checksum_before :=
      if fs.is_file source_path then fs.file_checksum source_path else none
    let archive_path := freshArchivePath fs archive_dir source_path (fs.entries.length + 1) 0
    if fs.faulty.contains archive_path || fs.faulty.contains source_path then
      .ok ({ st with errors := st.errors + 1 }, fs, log)
    else
      .ok ({ st with archived := st.archived + 1 }, fs.addFile archive_path 0,
        UndoManager.log_action log (some file_id) "ARCHIVED" source_path
          (some archive_path) (some batch_id) checksum_before none)

/-- One iteration of the `for row in approved` loop, with its
`try/except`: an escaping exception increments `errors` and keeps the
filesystem and log the raise left behind. -/
def dispatch (migrate : MigrateFn) (trash_dir year_month : String)
    (st : EngineState) (fs : Fs) (log : List LogEntry) (row : PlanRow)
    (batch_id : String) (dry_run : Bool) : EngineState × Fs × List LogEntry :=
  let res :=
    if row.final_action = "MOVE_DATA" ∨ row.final_action = "MOVE_APP" then
      execute_move migrate st fs log row.id row.path row.extension row.final_action
        batch_id dry_run
    else if row.final_action = "DELETE_JUNK" ∨ row.final_action = "DELETE_UNUSED" then
      execute_delete trash_dir st fs log row.id row.path batch_id dry_run
    else if row.final_action = "ARCHIVE" then
      execute_archive year_month st fs log row.id row.path batch_id dry_run
    else
      .ok ({ st with skipped := st.skipped + 1 }, fs, log)
  match res with
  | .ok r => r
  | .error (fs1, log1) => ({ st with errors := st.errors + 1 }, fs1, log1)

/-- The dispatch loop over the approved rows. -/
def planLoop (migrate : MigrateFn) (trash_dir year_month : String)
    (batch_id : String) (dry_run : Bool) :
    List PlanRow → EngineState × Fs × List LogEntry →
      EngineState × Fs × List LogEntry
  | [], acc => acc
  | row :: rest, acc =>
    planLoop migrate trash_dir year_month batch_id dry_run rest
      (dispatch migrate trash_dir year_month acc.1 acc.2.1 acc.2.2 row batch_id dry_run)

structure ExecResult where
  summary : ExecSummary
  state : EngineState
  fs : Fs
  log : List LogEntry
deriving Repr, DecidableEq

/-- `ExecutionEngine.execute_plan(dry_run)`: read the approved plan; if it
is empty return `_summary(batch_id=None)` at once (counters untouched),
otherwise allocate `batch_id` (the `undo.new_batch()` value, supplied as a
parameter) and dispatch each row. -/
def execute_plan (migrate : MigrateFn) (trash_dir year_month : String)
    (st : EngineState) (fs : Fs) (log : List LogEntry) (approved : List PlanRow)
    (batch_id : String) (dry_run : Bool) : ExecResult :=
  if approved = [] then ⟨summary st none, st, fs, log⟩
  else
    let r := planLoop migrate trash_dir year_month batch_id dry_run approved (st, fs, log)
    ⟨summary r.1 (some batch_id), r.1, r.2.1, r.2.2⟩

end ExecutionEngine

/-! ## `classifier.py` — JSON values and the tolerant response parser

`json.loads` is embedded as a fuelled recursive-descent parser for strict
JSON (objects, arrays, strings with escapes, numbers, `true`/`false`/
`null`); numbers become exact `PyFloat` fractions.  `\uXXXX` escapes map
to the code point without surrogate-pair combination, and non-finite
`float()` spellings (`inf`, `nan`) are not modelled — neither shape occurs
in any verified property. -/

inductive JVal where
  | jnull
  | jbool (b : Bool)
  | jnum (v : PyFloat)
  | jstr (s : String)
  | jarr (items : List JVal)
  | jobj (fields : List (String × JVal))

/-- JSON whitespace (`[ \t\n\r]`, as in Python's `json` module). -/
def jsonWs (c : Char) : Bool := c = ' ' || c = '\t' || c = '\n' || c = '\r'

/-- Python `str.strip()` / regex `\s` whitespace (ASCII range). -/
def pyIsSpace (c : Char) : Bool :=
  c = ' ' || c = '\t' || c = '\n' || c = '\r' ||
    c = Char.ofNat 11 || c = Char.ofNat 12

def hexDigitVal (c : Char) : Option Nat :=
  if '0' ≤ c ∧ c ≤ '9' then some (c.toNat - 48)
  else if 'a' ≤ c ∧ c ≤ 'f' then some (c.toNat - 87)
  else if 'A' ≤ c ∧ c ≤ 'F' then some (c.toNat - 55)
  else none

/-- Body of a JSON string literal (after the opening quote). -/
def parseStringBody : Nat → List Char → Option (List Char × List Char)
  | 0, _ => none
  | fuel + 1, cs =>
    match cs with
    | [] => none
    | '"' :: rest => some ([], rest)
    | '\\' :: esc =>
      let push (ch : Char) (r : List Char) : Option (List Char × List Char) :=
        (parseStringBody fuel r).map (fun p => (ch :: p.1, p.2))
      match esc with
      | '"' :: r => push '"' r
      | '\\' :: r => push '\\' r
      | '/' :: r => push '/' r
      | 'b' :: r => push (Char.ofNat 8) r
      | 'f' :: r => push (Char.ofNat 12) r
      | 'n' :: r => push '\n' r
      | 'r' :: r => push '\r' r
      | 't' :: r => push '\t' r
      | 'u' :: h1 :: h2 :: h3 :: h4 :: r =>
        match hexDigitVal h1, hexDigitVal h2, hexDigitVal h3, hexDigitVal h4 with
        | some a, some b, some c, some d =>
          push (Char.ofNat (((a * 16 + b) * 16 + c) * 16 + d)) r
        | _, _, _, _ => none
      | _ => none
    | c :: rest => if c.toNat < 32 then none else
        (parseStringBody fuel rest).map (fun p => (c :: p.1, p.2))

/-- A JSON string literal starting at the opening quote's successor. -/
def parseJString (cs : List Char) : Option (String × List Char) :=
  (parseStringBody (cs.length + 1) cs).map (fun p => (String.mk p.1, p.2))

def digitsToNat (ds : List Char) : Nat :=
  ds.foldl (fun a c => a * 10 + (c.toNat - 48)) 0

/-- Assemble a decimal number: `±(int.frac) × 10^e` as an exact fraction
with a power-of-ten denominator. -/
def assembleNumber (neg : Bool) (intDigits fracDigits : List Char) (e : Int) : PyFloat :=
  let m : Nat := digitsToNat (intDigits ++ fracDigits)
  let num0 : Int := if neg then -(m : Int) else (m : Int)
  let t : Int := e - fracDigits.length
  if 0 ≤ t then ⟨num0 * ((10 : Int) ^ t.toNat), 1⟩ else ⟨num0, 10 ^ (-t).toNat⟩

/-- Optional `[eE][+-]?digits` exponent. -/
def parseExponent (cs : List Char) : Option (Int × List Char) :=
  match cs with
  | 'e' :: r | 'E' :: r =>
    let (esign, r1) := match r with
      | '+' :: rr => ((1 : Int), rr)
      | '-' :: rr => ((-1 : Int), rr)
      | _ => ((1 : Int), r)
    let ds := r1.takeWhile Char.isDigit
    if ds = [] then none
    else some (esign * (digitsToNat ds : Int), r1.dropWhile Char.isDigit)
  | _ => some (0, cs)

/-- A strict JSON number (`-?(0|[1-9]\d*)(\.\d+)?([eE][+-]?\d+)?`). -/
def parseNumber (cs : List Char) : Option (PyFloat × List Char) :=
  let (neg, cs1) := match cs with
    | '-' :: r => (true, r)
    | _ => (false, cs)
  let intDigits := cs1.takeWhile Char.isDigit
  let cs2 := cs1.dropWhile Char.isDigit
  if intDigits = [] then none
  else if 1 < intDigits.length ∧ intDigits.head? = some '0' then none
  else
    let fracStep : Option (List Char × List Char) :=
      match cs2 with
      | '.' :: r =>
        let fds := r.takeWhile Char.isDigit
        if fds = [] then none else some (fds, r.dropWhile Char.isDigit)
      | _ => some ([], cs2)
    match fracStep with
    | none => none
    | some (fracDigits, cs3) =>
      match parseExponent cs3 with
      | none => none
      | some (e, cs4) => some (assembleNumber neg intDigits fracDigits e, cs4)

mutual

/-- One JSON value (leading whitespace allowed). -/
def parseValue : Nat → List Char → Option (JVal × List Char)
  | 0, _ => none
  | fuel + 1, cs =>
    match cs.dropWhile jsonWs with
    | '{' :: rest =>
      (match rest.dropWhile jsonWs with
       | '}' :: r2 => some (.jobj [], r2)
       | _ => (parseMembers fuel rest).map (fun p => (.jobj p.1, p.2)))
    | '[' :: rest =>
      (match rest.dropWhile jsonWs with
       | ']' :: r2 => some (.jarr [], r2)
       | _ => (parseArrItems fuel rest).map (fun p => (.jarr p.1, p.2)))
    | 't' :: 'r' :: 'u' :: 'e' :: r => some (.jbool true, r)
    | 'f' :: 'a' :: 'l' :: 's' :: 'e' :: r => some (.jbool false, r)
    | 'n' :: 'u' :: 'l' :: 'l' :: r => some (.jnull, r)
    | '"' :: r => (parseJString r).map (fun p => (.jstr p.1, p.2))
    | other => (parseNumber other).map (fun p => (.jnum p.1, p.2))

/-- The comma-separated items of a non-empty array, up to and including
the closing bracket. -/
def parseArrItems : Nat → List Char → Option (List JVal × List Char)
  | 0, _ => none
  | fuel + 1, cs =>
    match parseValue fuel cs with
    | none => none
    | some (v, cs1) =>
      match cs1.dropWhile jsonWs with
      | ',' :: cs2 =>
        (parseArrItems fuel cs2).map (fun p => (v :: p.1, p.2))
      | ']' :: rest => some ([v], rest)
      | _ => none

/-- The members of a non-empty object, up to and including the closing
brace. -/
def parseMembers : Nat → List Char → Option (List (String × JVal) × List Char)
  | 0, _ => none
  | fuel + 1, cs =>
    match cs.dropWhile jsonWs with
    | '"' :: r =>
      match parseJString r with
      | none => none
      | some (key, cs1) =>
        match cs1.dropWhile jsonWs with
        | ':' :: cs2 =>
          match parseValue fuel cs2 with
          | none => none
          | some (v, cs3) =>
            match cs3.dropWhile jsonWs with
            | ',' :: cs4 =>
              (parseMembers fuel cs4).map (fun p => ((key, v) :: p.1, p.2))
            | '}' :: rest => some ([(key, v)], rest)
            | _ => none
        | _ => none
    | _ => none

end

/-- `json.loads`: one value, optionally surrounded by JSON whitespace. -/
def loads (cs : List Char) : Option JVal :=
  match parseValue (2 * cs.length + 2) cs with
  | some (v, rest) => if rest.dropWhile jsonWs = [] then some v else none
  | none => none

/-- Python `dict` lookup for a parsed object: on duplicate keys the last
binding wins, as in `json.loads`. -/
def objGet (fields : List (String × JVal)) (key : String) : Option JVal :=
  (fields.reverse.find? (fun f => f.1 == key)).map Prod.snd

/-- Python `str()` on a parsed JSON value.  The string case is the one the
pipeline exercises; the other renderings are schematic and no verified
property inspects them. -/
def pyStr : JVal → String
  | .jstr s => s
  | .jnull => "None"
  | .jbool true => "True"
  | .jbool false => "False"
  | .jnum v => toString v.num ++ "/" ++ toString v.den
  | .jarr _ => "<list>"
  | .jobj _ => "<dict>"

/-- Python `float(str)`: optional surrounding whitespace and sign, digits
with an optional decimal point somewhere, optional exponent.  `None` is a
raised `ValueError`. -/
def parsePyFloatChars (s : List Char) : Option PyFloat :=
  let cs := ((s.dropWhile pyIsSpace).reverse.dropWhile pyIsSpace).reverse
  let (neg, cs1) := match cs with
    | '-' :: r => (true, r)
    | '+' :: r => (false, r)
    | _ => (false, cs)
  let intDigits := cs1.takeWhile Char.isDigit
  let cs2 := cs1.dropWhile Char.isDigit
  let fracStep : Option (List Char × List Char) :=
    match cs2 with
    | '.' :: r => some (r.takeWhile Char.isDigit, r.dropWhile Char.isDigit)
    | _ => some ([], cs2)
  match fracStep with
  | none => none
  | some (fracDigits, cs3) =>
    if intDigits = [] ∧ fracDigits = [] then none
    else
      match parseExponent cs3 with
      | none => none
      | some (e, cs4) =>
        if cs4 = [] then some (assembleNumber neg intDigits fracDigits e) else none

/-- Python `float(x)` on a parsed JSON value: numbers pass through,
strings are parsed, booleans become 0/1; `None`, lists and dicts raise
`TypeError` (`none`). -/
def pyFloatOfJVal : JVal → Option PyFloat
  | .jnum v => some v
  | .jstr s => parsePyFloatChars s.data
  | .jbool true => some ⟨1, 1⟩
  | .jbool false => some ⟨0, 1⟩
  | _ => none

def VALID_ACTIONS : List String :=
  ["KEEP", "MOVE_APP", "MOVE_DATA", "DELETE_JUNK", "DELETE_UNUSED", "ARCHIVE"]

structure ClassificationResult where
  path : String
  action : String
  confidence : PyFloat
  reason : String
  category : String
deriving Repr, DecidableEq

/-- One item of the parsed array: non-dict items are skipped (with a
warning); `action` is uppercased and coerced to `KEEP` when outside the
alphabet; `confidence` is coerced to float and clamped into `[0, 1]`, with
coercion failure giving `0.0`. -/
def parseItem : JVal → Option ClassificationResult
  | .jobj fields =>
    let action0 := pyUpper (pyStr ((objGet fields "action").getD (.jstr "KEEP")))
    let action := if VALID_ACTIONS.contains action0 then action0 else "KEEP"
    let confidence :=
      match pyFloatOfJVal ((objGet fields "confidence").getD (.jnum ⟨0, 1⟩)) with
      | some q => PyFloat.pymax ⟨0, 1⟩ (PyFloat.pymin ⟨1, 1⟩ q)
      | none => ⟨0, 1⟩
    some { path := pyStr ((objGet fields "path").getD (.jstr "")),
           action := action, confidence := confidence,
           reason := pyStr ((objGet fields "reason").getD (.jstr "")),
           category := pyStr ((objGet fields "category").getD (.jstr "")) }
  | _ => none

/-- `str.strip()` on a character list. -/
def stripChars (cs : List Char) : List Char :=
  ((cs.dropWhile pyIsSpace).reverse.dropWhile pyIsSpace).reverse

def backtick : Char := Char.ofNat 96

/-- `re.sub(r"^` ``` `(?:json)?\s*", "", ·)`: one leading code fence. -/
def dropLeadingFence (cs : List Char) : List Char :=
  if [backtick, backtick, backtick].isPrefixOf cs then
    let r1 := cs.drop 3
    let r2 := if ['j', 's', 'o', 'n'].isPrefixOf r1 then r1.drop 4 else r1
    r2.dropWhile pyIsSpace
  else cs

/-- `re.sub(r"\s*` ``` `$", "", ·)`: one trailing code fence. -/
def dropTrailingFence (cs : List Char) : List Char :=
  if [backtick, backtick, backtick].isSuffixOf cs then
    ((cs.take (cs.length - 3)).reverse.dropWhile pyIsSpace).reverse
  else cs

/-- Index of the first occurrence of `c` (Python `str.find`). -/
def findIdxOf (c : Char) : List Char → Option Nat
  | [] => none
  | x :: xs => if x = c then some 0 else (findIdxOf c xs).map (· + 1)

/-- `re.search(r"\[.*\]", ·, re.DOTALL)`: the greedy match runs from the
first `[` to the last `]` of the whole text (not to the first balanced
bracket); no match leaves the text unchanged. -/
def extractBlock (cs : List Char) : List Char :=
  match findIdxOf '[' cs, rfindIdx ']' cs with
  | some i, some j => if i < j then (cs.drop i).take (j - i + 1) else cs
  | _, _ => cs

/-- `re.sub(r",\s*\]", "]", ·)`: every comma directly preceding a closing
bracket (modulo whitespace) is dropped, left to right. -/
def removeTrailingCommas : Nat → List Char → List Char
  | 0, cs => cs
  | _ + 1, [] => []
  | fuel + 1, c :: rest =>
    if c = ',' then
      match rest.dropWhile pyIsSpace with
      | ']' :: tail => ']' :: removeTrailingCommas fuel tail
      | _ => ',' :: removeTrailingCommas fuel rest
    else c :: removeTrailingCommas fuel rest

/-- `classifier._parse_response(text, expected_count)`.  The count is only
used for a warning in the source, so it does not influence the result. -/
def parse_response (text : String) (_expected_count : Nat) : List ClassificationResult :=
  let c0 := stripChars text.data
  let c1 := dropLeadingFence c0
  let c2 := dropTrailingFence c1
  let c3 := stripChars c2
  let c4 := extractBlock c3
  let c5 := removeTrailingCommas c4.length c4
  match loads c5 with
  | some (.jarr items) => items.filterMap parseItem
  | some _ => []
  | none => []

/-! ## `classifier.py` — OllamaClient configuration -/

structure OllamaClient where
  host : String
  model : String
  generate_url : String
deriving Repr, DecidableEq

/-- Python `str.rstrip("/")`. -/
def rstripSlash (s : String) : String :=
  String.mk ((s.data.reverse.dropWhile (fun c => c = '/')).reverse)

/-- `OllamaClient.__init__(host, model)`: the host argument is stored
verbatim (after trailing-slash stripping) and used to build the request
URL — there is no validation of any kind. -/
def OllamaClient.init (host model : String) : OllamaClient :=
  { host := rstripSlash host, model := model,
    generate_url := rstripSlash host ++ "/api/generate" }

/-- The loopback-only endpoints the spec allows
(`127.0.0.1:11434` / `localhost:11434`). -/
def isLoopbackOllamaHost (host : String) : Bool :=
  host = "http://127.0.0.1:11434" || host = "http://localhost:11434"

/-- C7 counterexample scenario: one approved `MOVE_DATA`, executed for
real, then a second run against the now-empty plan on the same engine. -/
def c7_migrate : ExecutionEngine.MigrateFn := fun fs log _ _ _ _ => (true, fs, log)

def c7_fs : Fs := ⟨[("C:\\Users\\A\\Docs\\f.txt", .file 7)], []⟩

def c7_plan : List PlanRow := [⟨1, "C:\\Users\\A\\Docs\\f.txt", some ".txt", "MOVE_DATA"⟩]

def c7_run1 : ExecutionEngine.ExecResult :=
  ExecutionEngine.execute_plan c7_migrate "D:\\DriveMindr\\trash" "2026-10"
    {} c7_fs [] c7_plan "batch_1" false

def c7_run2 : ExecutionEngine.ExecResult :=
  ExecutionEngine.execute_plan c7_migrate "D:\\DriveMindr\\trash" "2026-10"
    c7_run1.state c7_run1.fs c7_run1.log [] "batch_2" false

deriving instance DecidableEq for Except

/-! ## Predicates used by the verified properties -/

/-- Entry-wise preservation for the append-only action log: every field is
kept and the `undone` flag can only go from `false` to `true`. -/
def preservesEntry (e e' : LogEntry) : Prop :=
  e'.id = e.id ∧ e'.file_id = e.file_id ∧ e'.action = e.action ∧
  e'.source_path = e.source_path ∧ e'.dest_path = e.dest_path ∧
  e'.checksum_before = e.checksum_before ∧ e'.checksum_after = e.checksum_after ∧
  e'.batch_id = e.batch_id ∧ (e.undone = true → e'.undone = true)

/-- The log after an operation is the old log entry-for-entry (same length,
same rows, monotone `undone`): nothing is ever deleted. -/
def logPreserved (l l' : List LogEntry) : Prop := List.Forall₂ preservesEntry l l'


namespace SafetyEngine

theorem check_protected_path_id (fp : String) (v : SafetyVerdict)
    (h : is_path_protected fp = false) : check_protected_path fp v = v := by
  simp [check_protected_path, h]

theorem check_protected_owner_id (o : Option String) (v : SafetyVerdict)
    (h : owner_protected o = false) : check_protected_owner o v = v := by
  simp [check_protected_owner, h]

theorem check_guardian_fires (fp : String) (e : Option String) (v : SafetyVerdict)
    (hd : is_delete_action v.final_action = true)
    (he : ¬ effective_ext fp e = "")
    (hg : GUARDIAN_EXTENSIONS.contains (pyLower (effective_ext fp e)) = true) :
    check_guardian fp e v =
      { v with is_guardian_protected := true, final_action := "KEEP", overridden := true,
               override_reason := "Document Guardian — " ++ effective_ext fp e ++
                 " files cannot be deleted, only moved/archived",
               needs_review := true,
               warnings := v.warnings ++
                 ["GUARDIAN: " ++ effective_ext fp e ++ " file protected from deletion"] } := by
  have hm : pyLower (effective_ext fp e) ∈ GUARDIAN_EXTENSIONS := by simpa using hg
  simp [check_guardian, hd, he, hm]

theorem check_guardian_id (fp : String) (e : Option String) (v : SafetyVerdict)
    (hg : GUARDIAN_EXTENSIONS.contains (pyLower (effective_ext fp e)) = false) :
    check_guardian fp e v = v := by
  have hm : pyLower (effective_ext fp e) ∉ GUARDIAN_EXTENSIONS := by
    intro hmem
    have : GUARDIAN_EXTENSIONS.contains (pyLower (effective_ext fp e)) = true := by
      simpa using hmem
    rw [this] at hg
    cases hg
  by_cases hd : is_delete_action v.final_action
  · simp [check_guardian, hd, hm]
  · simp [check_guardian, hd]

theorem check_sensitive_id (fp : String) (v : SafetyVerdict)
    (h : is_sensitive_file fp = false) : check_sensitive fp v = v := by
  simp [check_sensitive, h]

theorem check_sensitive_final (fp : String) (v : SafetyVerdict)
    (hd : is_delete_action v.final_action = false) :
    (check_sensitive fp v).final_action = v.final_action := by
  by_cases h : is_sensitive_file fp <;> simp [check_sensitive, h, hd]

theorem check_confidence_final (v : SafetyVerdict)
    (hd : is_delete_action v.final_action = false) :
    (check_confidence v).final_action = v.final_action := by
  simp only [check_confidence, hd, Bool.false_and]
  split_ifs <;> simp_all

theorem check_confidence_low_delete (v : SafetyVerdict)
    (hd : is_delete_action v.final_action = true)
    (hl : v.confidence.lt CONFIDENCE_DELETE_MIN = true) :
    check_confidence v =
      { v with final_action := "KEEP", overridden := true,
               override_reason := "Delete requires higher confidence",
               needs_review := true } := by
  simp [check_confidence, hd, hl]

theorem check_confidence_id (v : SafetyVerdict)
    (h1 : v.confidence.lt CONFIDENCE_DELETE_MIN = false)
    (h2 : v.confidence.lt CONFIDENCE_UNCERTAIN = false)
    (h3 : v.confidence.lt CONFIDENCE_AUTO_APPROVE = false) :
    check_confidence v = v := by
  simp [check_confidence, h1, h2, h3]

theorem check_unprotected (fp act : String) (conf : PyFloat) (o : Option String)
    (e : Option String)
    (hp : is_path_protected fp = false) (ho : owner_protected o = false) :
    check fp act conf o e =
      check_confidence (check_sensitive fp (check_guardian fp e
        { original_action := act, final_action := act, confidence := conf })) := by
  rw [check]
  simp only [check_protected_path_id fp _ hp, check_protected_owner_id o _ ho]
  rfl

end SafetyEngine

open SafetyEngine

/-- C2: for every file whose (explicit or path-inferred) extension is in
the guardian set, every delete action and every confidence in `[0, 1]`,
`SafetyEngine.check` returns `final_action = KEEP`; and a file with no
extension and a guardian-looking leaf name (`Makefile`) is not
guardian-protected, because the guardian set is extension-based. -/
theorem c2_guardian_extension_blocks_delete :
    (∀ (fp act : String) (conf : PyFloat) (owner : Option String) (extension : Option String),
      GUARDIAN_EXTENSIONS.contains (pyLower (effective_ext fp extension)) = true →
      (act = "DELETE_JUNK" ∨ act = "DELETE_UNUSED") →
      PyFloat.le ⟨0, 1⟩ conf = true → PyFloat.le conf ⟨1, 1⟩ = true →
      (check fp act conf owner extension).final_action = "KEEP") ∧
    (check "C:\\repo\\Makefile" "DELETE_JUNK" ⟨99, 100⟩ none none).is_guardian_protected = false ∧
    (check "C:\\repo\\Makefile" "DELETE_JUNK" ⟨99, 100⟩ none none).final_action = "DELETE_JUNK" := by
  refine ⟨?_, by decide, by decide⟩
  intro fp act conf owner extension hg hact h0 h1
  have he : ¬ (effective_ext fp extension = "") := by
    intro h0
    rw [h0] at hg
    exact absurd hg (by decide)
  have hda : is_delete_action act = true := by
    rcases hact with h | h <;> subst h <;> decide
  cases hp : is_path_protected fp with
  | true => simp [check, check_protected_path, hp]
  | false =>
    cases ho : owner_protected owner with
    | true => simp [check, check_protected_path_id fp _ hp, check_protected_owner, ho]
    | false =>
      rw [check_unprotected fp act conf owner extension hp ho]
      rw [check_guardian_fires fp extension _ hda he hg]
      rw [check_confidence_final _ ?hd2, check_sensitive_final _ _ ?hd1]
      case hd1 => exact (by decide : is_delete_action "KEEP" = false)
      case hd2 =>
        rw [check_sensitive_final _ _ (by exact (by decide : is_delete_action "KEEP" = false))]
        exact (by decide : is_delete_action "KEEP" = false)


/-- Witness for C2: a `.docx` document proposed for deletion at high
confidence is forced to `KEEP`. -/
theorem c2_guardian_witness :
    GUARDIAN_EXTENSIONS.contains
      (pyLower (effective_ext "C:\\Users\\Alice\\Documents\\thesis.docx" (some ".docx"))) = true ∧
    (check "C:\\Users\\Alice\\Documents\\thesis.docx" "DELETE_JUNK" ⟨99, 100⟩ none
      (some ".docx")).final_action = "KEEP" :=
  ⟨by decide,
    c2_guardian_extension_blocks_delete.1 "C:\\Users\\Alice\\Documents\\thesis.docx"
      "DELETE_JUNK" ⟨99, 100⟩ none (some ".docx") (by decide) (Or.inl rfl)
      (by decide) (by decide)⟩

/-- C1: a path inside a protected root, or a protected owner, forces the
verdict to `KEEP`, overridden and `is_protected`, and Layer 1
short-circuits, so no later layer sets any other flag. -/
theorem c1_protected_forces_keep
    (file_path ai_action : String) (conf : PyFloat)
    (owner : Option String) (extension : Option String)
    (h : is_path_protected file_path = true ∨ owner_protected owner = true) :
    (check file_path ai_action conf owner extension).final_action = "KEEP" ∧
    (check file_path ai_action conf owner extension).overridden = true ∧
    (check file_path ai_action conf owner extension).is_protected = true ∧
    (check file_path ai_action conf owner extension).is_guardian_protected = false ∧
    (check file_path ai_action conf owner extension).is_sensitive = false ∧
    (check file_path ai_action conf owner extension).needs_review = false := by
  by_cases hp : is_path_protected file_path
  · simp [check, check_protected_path, check_protected_owner, hp]
  · rcases h with h | h
    · exact absurd h hp
    · simp [check, check_protected_path, check_protected_owner, hp, h]

/-- Witness for C1: `C:\Windows\System32\notepad.exe` proposed for
deletion at full confidence stays `KEEP`. -/
theorem c1_protected_witness :
    is_path_protected "C:\\Windows\\System32\\notepad.exe" = true ∧
    (check "C:\\Windows\\System32\\notepad.exe" "DELETE_JUNK" ⟨1, 1⟩ none
      (some ".exe")).final_action = "KEEP" :=
  ⟨by decide,
    (c1_protected_forces_keep "C:\\Windows\\System32\\notepad.exe" "DELETE_JUNK" ⟨1, 1⟩
      none (some ".exe") (Or.inl (by decide))).1⟩

/-- C3: a delete on a file that is not protected, not guardian-protected
and not sensitive is blocked below confidence 0.85 (forced `KEEP`,
overridden, review-flagged) and permitted at exactly 0.85 with no
override and no review flag. -/
theorem c3_delete_confidence_gate (fp act : String) (conf : PyFloat)
    (owner : Option String) (extension : Option String)
    (hact : act = "DELETE_JUNK" ∨ act = "DELETE_UNUSED")
    (hp : is_path_protected fp = false) (ho : owner_protected owner = false)
    (hg : GUARDIAN_EXTENSIONS.contains (pyLower (effective_ext fp extension)) = false)
    (hs : is_sensitive_file fp = false) :
    (conf.lt CONFIDENCE_DELETE_MIN = true →
      (check fp act conf owner extension).final_action = "KEEP" ∧
      (check fp act conf owner extension).overridden = true ∧
      (check fp act conf owner extension).needs_review = true) ∧
    (conf.eqv CONFIDENCE_DELETE_MIN = true →
      (check fp act conf owner extension).final_action = act ∧
      (check fp act conf owner extension).overridden = false ∧
      (check fp act conf owner extension).needs_review = false) := by
  have hda : is_delete_action act = true := by
    rcases hact with h | h <;> subst h <;> decide
  rw [check_unprotected fp act conf owner extension hp ho,
      check_guardian_id fp extension _ hg, check_sensitive_id fp _ hs]
  constructor
  · intro hlt
    rw [check_confidence_low_delete _ hda hlt]
    exact ⟨rfl, rfl, rfl⟩
  · intro heqv
    have hnum : conf.num * 100 = 85 * (conf.den : Int) := by
      simpa [PyFloat.eqv, CONFIDENCE_DELETE_MIN] using heqv
    have h1 : conf.lt CONFIDENCE_DELETE_MIN = false := by
      simp only [PyFloat.lt, CONFIDENCE_DELETE_MIN, decide_eq_false_iff_not, not_lt]
      omega
    have h2 : conf.lt CONFIDENCE_UNCERTAIN = false := by
      simp only [PyFloat.lt, CONFIDENCE_UNCERTAIN, decide_eq_false_iff_not, not_lt]
      omega
    have h3 : conf.lt CONFIDENCE_AUTO_APPROVE = false := by
      simp only [PyFloat.lt, CONFIDENCE_AUTO_APPROVE, decide_eq_false_iff_not, not_lt]
      omega
    rw [check_confidence_id _ h1 h2 h3]
    exact ⟨rfl, rfl, rfl⟩

/-- Witness for C3: `junk.tmp` is blocked at confidence 0.5 and permitted
at exactly 0.85. -/
theorem c3_confidence_witness :
    ("DELETE_JUNK" = "DELETE_JUNK" ∨ ("DELETE_JUNK" : String) = "DELETE_UNUSED") ∧
    (check "C:\\temp\\junk.tmp" "DELETE_JUNK" ⟨1, 2⟩ none (some ".tmp")).final_action = "KEEP" ∧
    (check "C:\\temp\\junk.tmp" "DELETE_JUNK" ⟨85, 100⟩ none (some ".tmp")).overridden = false := by
  have base := c3_delete_confidence_gate "C:\\temp\\junk.tmp" "DELETE_JUNK" ⟨1, 2⟩ none
    (some ".tmp") (Or.inl rfl) (by decide) (by decide) (by decide) (by decide)
  have base2 := c3_delete_confidence_gate "C:\\temp\\junk.tmp" "DELETE_JUNK" ⟨85, 100⟩ none
    (some ".tmp") (Or.inl rfl) (by decide) (by decide) (by decide) (by decide)
  exact ⟨Or.inl rfl, (base.1 (by decide)).1, (base2.2 (by decide)).2.1⟩

/-- C5 counterexample: the claim's own example is wrong on the code —
stripping the first three components of `C:\Users\Alice\Documents\Work\r.pdf`
leaves `Documents\Work\r.pdf`, so the destination doubles the `Documents`
segment instead of being `<ROOT_documents>\Work\r.pdf`. -/
theorem c5_example_counterexample :
    compute_dest_path "C:\\Users\\Alice\\Documents\\Work\\r.pdf" "documents" =
      "D:\\Documents\\Documents\\Work\\r.pdf" ∧
    compute_dest_path "C:\\Users\\Alice\\Documents\\Work\\r.pdf" "documents" ≠
      "D:\\Documents\\Work\\r.pdf" := by
  constructor
  · decide
  · decide

/-- C5 (amended): the destination is the remainder after the first three
native components, appended under the category root; a source with fewer
than four components reduces to `<ROOT>\<leaf>`; and the claim's example
file actually maps to `<ROOT_documents>\Documents\Work\r.pdf`. -/
theorem c5_dest_path_strips_three_components :
    (∀ source category, 3 < (winParts source).length →
      compute_dest_path source category =
        joinWin ((D_DRIVE_STRUCTURE.lookup category).getD "D:\\Documents")
          ((winParts source).drop 3)) ∧
    (∀ source category, (winParts source).length ≤ 3 →
      compute_dest_path source category =
        joinWin ((D_DRIVE_STRUCTURE.lookup category).getD "D:\\Documents")
          [winName source]) ∧
    categorize_destination "C:\\Users\\Alice\\Documents\\Work\\r.pdf" (some ".pdf") =
      "documents" ∧
    compute_dest_path "C:\\Users\\Alice\\Documents\\Work\\r.pdf" "documents" =
      "D:\\Documents\\Documents\\Work\\r.pdf" := by
  refine ⟨?_, ?_, by decide, by decide⟩
  · intro source category h
    simp [compute_dest_path, h]
  · intro source category h
    rw [compute_dest_path, if_neg (by omega)]

/-- Witness for C5: the worked example exercises the more-than-three
branch, `C:\f.txt` the short branch. -/
theorem c5_dest_path_witness :
    (3 < (winParts "C:\\Users\\Alice\\Documents\\Work\\r.pdf").length ∧
      compute_dest_path "C:\\Users\\Alice\\Documents\\Work\\r.pdf" "documents" =
        joinWin "D:\\Documents" ["Documents", "Work", "r.pdf"]) ∧
    ((winParts "C:\\f.txt").length ≤ 3 ∧
      compute_dest_path "C:\\f.txt" "documents" = joinWin "D:\\Documents" ["f.txt"]) := by
  constructor
  · exact ⟨by decide,
      by
        have h := c5_dest_path_strips_three_components.1
          "C:\\Users\\Alice\\Documents\\Work\\r.pdf" "documents" (by decide)
        simpa using h⟩
  · exact ⟨by decide,
      by
        have h := (c5_dest_path_strips_three_components.2.1) "C:\\f.txt" "documents" (by decide)
        simpa using h⟩

/-- C7 counterexample: the second call does return a null batch id, but
its counts are the engine's cumulative counters (`moved = 1`), not
all-zero — `execute_plan` never resets the instance counters. -/
theorem c7_second_run_counts_counterexample :
    c7_run1.summary.moved = 1 ∧
    c7_run2.summary.batch_id = none ∧
    c7_run2.summary.moved = 1 ∧ c7_run2.summary.moved ≠ 0 := by
  refine ⟨by decide, by decide, by decide, by decide⟩

/-- C7 (amended): a run against an empty plan is a no-op that returns a
null batch identifier and the engine's accumulated counters unchanged
(all-zero only when the engine has not done anything yet). -/
theorem c7_empty_plan_noop (migrate : ExecutionEngine.MigrateFn)
    (trash_dir year_month : String) (st : EngineState) (fs : Fs)
    (log : List LogEntry) (batch_id : String) (dry_run : Bool) :
    ExecutionEngine.execute_plan migrate trash_dir year_month st fs log [] batch_id dry_run =
      ⟨ExecutionEngine.summary st none, st, fs, log⟩ := by
  rfl

/-- C8 counterexample: `OllamaClient.__init__` accepts a non-loopback
host verbatim (only stripping trailing slashes) and builds the request
URL from it — no rejection of any kind happens. -/
theorem c8_nonloopback_accepted_counterexample :
    isLoopbackOllamaHost "http://192.168.0.7:11434" = false ∧
    (OllamaClient.init "http://192.168.0.7:11434" OLLAMA_MODEL).host =
      "http://192.168.0.7:11434" ∧
    (OllamaClient.init "http://192.168.0.7:11434" OLLAMA_MODEL).generate_url =
      "http://192.168.0.7:11434/api/generate" := by
  refine ⟨by decide, by decide, by decide⟩

/-- C8 (amended): the client performs no host validation — any host is
stored after trailing-slash stripping and used for the generate URL; the
only loopback guarantee is the compile-time default `OLLAMA_HOST`. -/
theorem c8_no_host_validation :
    (∀ host model, (OllamaClient.init host model).host = rstripSlash host ∧
      (OllamaClient.init host model).generate_url = rstripSlash host ++ "/api/generate" ∧
      (OllamaClient.init host model).model = model) ∧
    isLoopbackOllamaHost OLLAMA_HOST = true :=
  ⟨fun _ _ => ⟨rfl, rfl, rfl⟩, by decide⟩

theorem decidedFinalAction_of_approved (c : ClassificationRow) (d : DecisionRow)
    (h : d.decision = "APPROVE" ∨ d.decision = "CHANGE") :
    decidedFinalAction c d =
      if d.decision = "CHANGE" then d.new_action.getD c.action else c.action := by
  rcases h with h | h <;> simp [decidedFinalAction, h]

theorem planRowFor_eq_some_iff (cat : Catalog) (f : FileRow) (r : PlanRow) :
    cat.planRowFor f = some r ↔
      ∃ c, cat.classificationFor f.id = some c ∧
        ∃ d, cat.decisionFor f.id = some d ∧
          (d.decision = "APPROVE" ∨ d.decision = "CHANGE") ∧
          r = ⟨f.id, f.path, f.extension, decidedFinalAction c d⟩ := by
  unfold Catalog.planRowFor
  cases hc : cat.classificationFor f.id with
  | none => simp
  | some c =>
    cases hd : cat.decisionFor f.id with
    | none => simp
    | some d =>
      by_cases h : d.decision = "APPROVE" ∨ d.decision = "CHANGE"
      · simp only [if_pos h]
        constructor
        · rintro hr
          exact ⟨c, rfl, d, rfl, h, (Option.some_inj.mp hr).symm⟩
        · rintro ⟨c', hc', d', hd', _, hr⟩
          obtain rfl : c = c' := Option.some_inj.mp hc'
          obtain rfl : d = d' := Option.some_inj.mp hd'
          rw [hr]
      · simp only [if_neg h]
        constructor
        · rintro hr
          cases hr
        · rintro ⟨c', hc', d', hd', h', hr⟩
          obtain rfl : d = d' := Option.some_inj.mp hd'
          exact absurd h' h

/-- C4: the approved-action view contains exactly the files whose user
decision is APPROVE or CHANGE; for CHANGE the final action is the user's
replacement, otherwise the stored classification's action; a PROTECT
decision forces the decided final action to KEEP and its file is excluded
from the plan. -/
theorem c4_approved_plan_view :
    (∀ (cat : Catalog) (r : PlanRow),
      r ∈ cat.get_approved_actions ↔
        ∃ f ∈ cat.files, ∃ c, cat.classificationFor f.id = some c ∧
          ∃ d, cat.decisionFor f.id = some d ∧
            (d.decision = "APPROVE" ∨ d.decision = "CHANGE") ∧
            r = ⟨f.id, f.path, f.extension,
                 if d.decision = "CHANGE" then d.new_action.getD c.action else c.action⟩) ∧
    (∀ (c : ClassificationRow) (d : DecisionRow),
      d.decision = "PROTECT" → decidedFinalAction c d = "KEEP") ∧
    (∀ (cat : Catalog) (f : FileRow) (d : DecisionRow),
      cat.decisionFor f.id = some d → d.decision = "PROTECT" →
      cat.planRowFor f = none) := by
  refine ⟨?_, ?_, ?_⟩
  · intro cat r
    rw [Catalog.get_approved_actions, List.mem_filterMap]
    constructor
    · rintro ⟨f, hf, hsome⟩
      obtain ⟨c, hc, d, hd, hok, hr⟩ := (planRowFor_eq_some_iff cat f r).mp hsome
      exact ⟨f, hf, c, hc, d, hd, hok, by rw [hr, decidedFinalAction_of_approved c d hok]⟩
    · rintro ⟨f, hf, c, hc, d, hd, hok, hr⟩
      refine ⟨f, hf, (planRowFor_eq_some_iff cat f r).mpr ⟨c, hc, d, hd, hok, ?_⟩⟩
      rw [hr, decidedFinalAction_of_approved c d hok]
  · intro c d h
    simp [decidedFinalAction, h]
  · intro cat f d hd h
    unfold Catalog.planRowFor
    cases hc : cat.classificationFor f.id with
    | none => rfl
    | some c =>
      have hnot : ¬ (d.decision = "APPROVE" ∨ d.decision = "CHANGE") := by
        rw [h]
        decide
      rw [hd]
      simp [hnot]

/-- Witness for C4: a three-file catalog — an approved delete enters the
plan with the classification action, a change-to-archive enters with the
replacement, a protected file is excluded. -/
theorem c4_plan_witness :
    (⟨1, "C:\\temp\\junk.tmp", some ".tmp", "DELETE_JUNK"⟩ : PlanRow) ∈
      (Catalog.mk
        [⟨1, "C:\\temp\\junk.tmp", "junk.tmp", some ".tmp", none⟩,
         ⟨2, "C:\\Users\\data.bin", "data.bin", some ".bin", none⟩,
         ⟨3, "C:\\Windows\\notepad.exe", "notepad.exe", some ".exe", none⟩]
        [⟨1, "DELETE_JUNK", ⟨95, 100⟩⟩, ⟨2, "MOVE_DATA", ⟨9, 10⟩⟩, ⟨3, "KEEP", ⟨1, 1⟩⟩]
        [⟨1, "APPROVE", none⟩, ⟨2, "CHANGE", some "ARCHIVE"⟩,
         ⟨3, "PROTECT", some "KEEP"⟩]).get_approved_actions ∧
    (Catalog.mk
        [⟨1, "C:\\temp\\junk.tmp", "junk.tmp", some ".tmp", none⟩,
         ⟨2, "C:\\Users\\data.bin", "data.bin", some ".bin", none⟩,
         ⟨3, "C:\\Windows\\notepad.exe", "notepad.exe", some ".exe", none⟩]
        [⟨1, "DELETE_JUNK", ⟨95, 100⟩⟩, ⟨2, "MOVE_DATA", ⟨9, 10⟩⟩, ⟨3, "KEEP", ⟨1, 1⟩⟩]
        [⟨1, "APPROVE", none⟩, ⟨2, "CHANGE", some "ARCHIVE"⟩,
         ⟨3, "PROTECT", some "KEEP"⟩]).planRowFor
      ⟨3, "C:\\Windows\\notepad.exe", "notepad.exe", some ".exe", none⟩ = none ∧
    decidedFinalAction ⟨3, "KEEP", ⟨1, 1⟩⟩ ⟨3, "PROTECT", some "KEEP"⟩ = "KEEP" := by
  refine ⟨?_, ?_, ?_⟩
  · exact (c4_approved_plan_view.1 _ _).mpr
      ⟨⟨1, "C:\\temp\\junk.tmp", "junk.tmp", some ".tmp", none⟩, by decide,
       ⟨1, "DELETE_JUNK", ⟨95, 100⟩⟩, by decide,
       ⟨1, "APPROVE", none⟩, by decide, Or.inl rfl, by decide⟩
  · exact c4_approved_plan_view.2.2 _ _ ⟨3, "PROTECT", some "KEEP"⟩ (by decide) rfl
  · exact c4_approved_plan_view.2.1 _ _ rfl

open ExecutionEngine in
/-- C10: in a non-dry file move, the checksum-mismatch rollback is
reachable only when both the pre- and post-move checksums were computed;
when either is `None` (missing/unreadable file or a directory), the
verification is skipped and a `MOVED` entry is still logged with the null
checksum field(s). -/
theorem c10_move_null_checksum_skips_verification
    (migrate : MigrateFn) (st : EngineState) (fs : Fs)
    (log : List LogEntry) (file_id : Nat) (source_path : String)
    (extension : Option String) (action : String) (batch_id : String) (fs1 : Fs)
    (happ : ¬ (action = "MOVE_APP" ∧ fs.is_dir source_path = true))
    (hex : fs.pathExists source_path = true)
    (hmv : fs.move source_path
        (compute_dest_path source_path (categorize_destination source_path extension)) =
      Except.ok fs1) :
    (moveChecksum fs source_path = none ∨
      moveChecksum fs1
        (compute_dest_path source_path (categorize_destination source_path extension)) = none →
      execute_move migrate st fs log file_id source_path extension action batch_id false =
        Except.ok ({ st with moved := st.moved + 1 }, fs1,
          UndoManager.log_action log (some file_id) "MOVED" source_path
            (some (compute_dest_path source_path (categorize_destination source_path extension)))
            (some batch_id) (moveChecksum fs source_path)
            (moveChecksum fs1
              (compute_dest_path source_path (categorize_destination source_path extension))))) ∧
    (∀ st' fs' log',
      execute_move migrate st fs log file_id source_path extension action batch_id false =
        Except.ok (st', fs', log') →
      st'.errors ≠ st.errors →
      (moveChecksum fs source_path).isSome = true ∧
      (moveChecksum fs1
        (compute_dest_path source_path (categorize_destination source_path extension))).isSome
          = true) := by
  have hbase : execute_move migrate st fs log file_id source_path extension action batch_id false =
      (if (moveChecksum fs source_path).isSome &&
          (moveChecksum fs1
            (compute_dest_path source_path (categorize_destination source_path extension))).isSome &&
          (moveChecksum fs source_path !=
            moveChecksum fs1
              (compute_dest_path source_path (categorize_destination source_path extension))) then
        match fs1.move (compute_dest_path source_path (categorize_destination source_path extension))
            source_path with
        | .error _ => .error (fs1, log)
        | .ok fs2 => .ok ({ st with errors := st.errors + 1 }, fs2, log)
      else
        .ok ({ st with moved := st.moved + 1 }, fs1,
          UndoManager.log_action log (some file_id) "MOVED" source_path
            (some (compute_dest_path source_path (categorize_destination source_path extension)))
            (some batch_id) (moveChecksum fs source_path)
            (moveChecksum fs1
              (compute_dest_path source_path (categorize_destination source_path extension))))) := by
    rw [execute_move, if_neg happ]
    simp only [Bool.false_eq_true, if_false, hex, Bool.not_true]
    rw [hmv]
  constructor
  · intro hnone
    rw [hbase]
    have hcond : ((moveChecksum fs source_path).isSome &&
        (moveChecksum fs1
          (compute_dest_path source_path (categorize_destination source_path extension))).isSome &&
        (moveChecksum fs source_path !=
          moveChecksum fs1
            (compute_dest_path source_path (categorize_destination source_path extension)))) = false := by
      rcases hnone with h | h <;> rw [h] <;> simp
    rw [hcond]
    simp
  · intro st' fs' log' hrun hne
    rw [hbase] at hrun
    by_cases hcond : ((moveChecksum fs source_path).isSome &&
        (moveChecksum fs1
          (compute_dest_path source_path (categorize_destination source_path extension))).isSome &&
        (moveChecksum fs source_path !=
          moveChecksum fs1
            (compute_dest_path source_path (categorize_destination source_path extension)))) = true
    · simp only [Bool.and_assoc] at hcond
      exact ⟨(Bool.and_eq_true_iff.mp hcond).1,
        ((Bool.and_eq_true_iff.mp (Bool.and_eq_true_iff.mp hcond).2).1)⟩
    · rw [Bool.not_eq_true] at hcond
      rw [hcond] at hrun
      simp only [if_false, Bool.false_eq_true] at hrun
      have : st' = { st with moved := st.moved + 1 } := by
        cases hrun
        rfl
      rw [this] at hne
      exact absurd rfl hne

open ExecutionEngine in
/-- Witness for C10: moving a directory (`MOVE_DATA` on a dir) computes no
checksums, skips verification, and logs a `MOVED` entry with both checksum
fields null. -/
theorem c10_move_null_checksum_witness :
    moveChecksum (⟨[("C:\\Users\\A\\Docs\\sub", .dir)], []⟩ : Fs) "C:\\Users\\A\\Docs\\sub" =
      none ∧
    execute_move (fun fs log _ _ _ _ => (true, fs, log)) {}
        (⟨[("C:\\Users\\A\\Docs\\sub", .dir)], []⟩ : Fs) [] 1 "C:\\Users\\A\\Docs\\sub"
        none "MOVE_DATA" "b1" false =
      Except.ok
        ({ moved := 1, deleted := 0, archived := 0, symlinked := 0, skipped := 0, errors := 0 },
         (⟨[("D:\\Documents\\Docs\\sub", .dir)], []⟩ : Fs),
         [{ id := 1, file_id := some 1, action := "MOVED",
            source_path := "C:\\Users\\A\\Docs\\sub",
            dest_path := some "D:\\Documents\\Docs\\sub", checksum_before := none,
            checksum_after := none, batch_id := some "b1", undone := false }]) := by
  have h := (c10_move_null_checksum_skips_verification
    (fun fs log _ _ _ _ => (true, fs, log)) {}
    (⟨[("C:\\Users\\A\\Docs\\sub", .dir)], []⟩ : Fs) [] 1 "C:\\Users\\A\\Docs\\sub"
    none "MOVE_DATA" "b1" (⟨[("D:\\Documents\\Docs\\sub", .dir)], []⟩ : Fs)
    (by decide) (by decide) (by decide)).1 (Or.inl (by decide))
  exact ⟨by decide, h⟩

theorem preservesEntry_refl (e : LogEntry) : preservesEntry e e :=
  ⟨rfl, rfl, rfl, rfl, rfl, rfl, rfl, rfl, fun h => h⟩

theorem preservesEntry_trans {a b c : LogEntry}
    (h1 : preservesEntry a b) (h2 : preservesEntry b c) : preservesEntry a c := by
  obtain ⟨i1, f1, a1, s1, d1, cb1, ca1, b1, u1⟩ := h1
  obtain ⟨i2, f2, a2, s2, d2, cb2, ca2, b2, u2⟩ := h2
  exact ⟨i2.trans i1, f2.trans f1, a2.trans a1, s2.trans s1, d2.trans d1,
    cb2.trans cb1, ca2.trans ca1, b2.trans b1, fun h => u2 (u1 h)⟩

theorem logPreserved_refl (l : List LogEntry) : logPreserved l l := by
  induction l with
  | nil => exact List.Forall₂.nil
  | cons e rest ih => exact List.Forall₂.cons (preservesEntry_refl e) ih

theorem logPreserved_trans {a b c : List LogEntry}
    (h1 : logPreserved a b) (h2 : logPreserved b c) : logPreserved a c := by
  induction h1 generalizing c with
  | nil => cases h2; exact List.Forall₂.nil
  | cons hp _ ih =>
    cases h2 with
    | cons hq hrest => exact List.Forall₂.cons (preservesEntry_trans hp hq) (ih hrest)

theorem mark_undone_preserved (l : List LogEntry) (i : Nat) :
    logPreserved l (UndoManager.mark_undone l i) := by
  unfold UndoManager.mark_undone logPreserved
  induction l with
  | nil => exact List.Forall₂.nil
  | cons e rest ih =>
    simp only [List.map_cons]
    refine List.Forall₂.cons ?_ ih
    by_cases h : e.id = i
    · rw [if_pos h]
      exact ⟨rfl, rfl, rfl, rfl, rfl, rfl, rfl, rfl, fun _ => rfl⟩
    · rw [if_neg h]
      exact preservesEntry_refl e

theorem undo_move_preserved {log : List LogEntry} {fs : Fs} {i : Nat} {s : String}
    {d : Option String} {dry b : Bool} {log1 : List LogEntry} {fs1 : Fs}
    (h : UndoManager.undo_move log fs i s d dry = .ok (b, log1, fs1)) :
    logPreserved log log1 := by
  cases d with
  | none =>
    simp only [UndoManager.undo_move] at h
    simp only [Except.ok.injEq, Prod.mk.injEq] at h
    obtain ⟨hb, hl, hfs⟩ := h
    cases hl
    exact logPreserved_refl log
  | some dp =>
    simp only [UndoManager.undo_move] at h
    split_ifs at h <;> (try split at h) <;>
      first
        | (simp only [Except.ok.injEq, Prod.mk.injEq] at h
           obtain ⟨hb, hl, hfs⟩ := h
           cases hl
           first
             | exact logPreserved_refl log
             | exact mark_undone_preserved log i)
        | cases h

theorem undo_delete_preserved {log : List LogEntry} {fs : Fs} {i : Nat} {s : String}
    {d : Option String} {dry b : Bool} {log1 : List LogEntry} {fs1 : Fs}
    (h : UndoManager.undo_delete log fs i s d dry = .ok (b, log1, fs1)) :
    logPreserved log log1 := by
  cases d with
  | none =>
    simp only [UndoManager.undo_delete] at h
    simp only [Except.ok.injEq, Prod.mk.injEq] at h
    obtain ⟨hb, hl, hfs⟩ := h
    cases hl
    exact logPreserved_refl log
  | some dp =>
    simp only [UndoManager.undo_delete] at h
    split_ifs at h <;> (try split at h) <;>
      first
        | (simp only [Except.ok.injEq, Prod.mk.injEq] at h
           obtain ⟨hb, hl, hfs⟩ := h
           cases hl
           first
             | exact logPreserved_refl log
             | exact mark_undone_preserved log i)
        | cases h

theorem undo_archive_preserved {log : List LogEntry} {fs : Fs} {i : Nat}
    {d : Option String} {dry b : Bool} {log1 : List LogEntry} {fs1 : Fs}
    (h : UndoManager.undo_archive log fs i d dry = .ok (b, log1, fs1)) :
    logPreserved log log1 := by
  cases d with
  | none =>
    simp only [UndoManager.undo_archive] at h
    simp only [Except.ok.injEq, Prod.mk.injEq] at h
    obtain ⟨hb, hl, hfs⟩ := h
    cases hl
    exact logPreserved_refl log
  | some dp =>
    simp only [UndoManager.undo_archive] at h
    split_ifs at h <;> (try split at h) <;>
      first
        | (simp only [Except.ok.injEq, Prod.mk.injEq] at h
           obtain ⟨hb, hl, hfs⟩ := h
           cases hl
           first
             | exact logPreserved_refl log
             | exact mark_undone_preserved log i)
        | cases h

theorem undo_symlink_preserved {log : List LogEntry} {fs : Fs} {i : Nat} {s : String}
    {d : Option String} {dry b : Bool} {log1 : List LogEntry} {fs1 : Fs}
    (h : UndoManager.undo_symlink log fs i s d dry = .ok (b, log1, fs1)) :
    logPreserved log log1 := by
  cases d with
  | none =>
    simp only [UndoManager.undo_symlink] at h
    simp only [Except.ok.injEq, Prod.mk.injEq] at h
    obtain ⟨hb, hl, hfs⟩ := h
    cases hl
    exact logPreserved_refl log
  | some dp =>
    simp only [UndoManager.undo_symlink] at h
    split_ifs at h with h1
    · simp only [Except.ok.injEq, Prod.mk.injEq] at h
      obtain ⟨hb, hl, hfs⟩ := h
      cases hl
      exact logPreserved_refl log
    · split at h
      · cases h
      · simp only [UndoManager.restoreFromTarget] at h
        split_ifs at h with h2 <;> (try split at h) <;>
      first
        | (simp only [Except.ok.injEq, Prod.mk.injEq] at h
           obtain ⟨hb, hl, hfs⟩ := h
           cases hl
           first
             | exact logPreserved_refl log
             | exact mark_undone_preserved log i)
        | cases h

theorem undo_single_preserved {log : List LogEntry} {fs : Fs} {e : LogEntry}
    {dry b : Bool} {log1 : List LogEntry} {fs1 : Fs}
    (h : UndoManager.undo_single log fs e dry = .ok (b, log1, fs1)) :
    logPreserved log log1 := by
  unfold UndoManager.undo_single at h
  split_ifs at h
  · exact undo_move_preserved h
  · exact undo_delete_preserved h
  · exact undo_archive_preserved h
  · exact undo_symlink_preserved h
  · simp only [Except.ok.injEq, Prod.mk.injEq] at h
    rw [← h.2.1]
    exact logPreserved_refl log

theorem undoLoop_counts (dry : Bool) (acts : List LogEntry) :
    ∀ (log : List LogEntry) (fs : Fs),
      (UndoManager.undoLoop dry acts log fs).1.undone +
        (UndoManager.undoLoop dry acts log fs).1.skipped +
        (UndoManager.undoLoop dry acts log fs).1.failed = acts.length := by
  induction acts with
  | nil => intro log fs; rfl
  | cons e rest ih =>
    intro log fs
    cases hs : UndoManager.undo_single log fs e dry with
    | ok r =>
      obtain ⟨b, log1, fs1⟩ := r
      have hI := ih log1 fs1
      cases b <;> simp [UndoManager.undoLoop, hs] <;> omega
    | error fs1 =>
      have hI := ih log fs1
      simp [UndoManager.undoLoop, hs]
      omega

theorem undoLoop_preserved (dry : Bool) (acts : List LogEntry) :
    ∀ (log : List LogEntry) (fs : Fs),
      logPreserved log (UndoManager.undoLoop dry acts log fs).2.1 := by
  induction acts with
  | nil => intro log fs; exact logPreserved_refl log
  | cons e rest ih =>
    intro log fs
    cases hs : UndoManager.undo_single log fs e dry with
    | ok r =>
      obtain ⟨b, log1, fs1⟩ := r
      cases b <;> simp only [UndoManager.undoLoop, hs] <;>
        exact logPreserved_trans (undo_single_preserved hs) (ih log1 fs1)
    | error fs1 =>
      simp only [UndoManager.undoLoop, hs]
      exact ih log fs1

/-- C9: `undo_batch` processes exactly the entries of the batch with
`undone = false`, newest (largest id) first; every processed entry is
counted exactly once among undone/skipped/failed (a raising reversal
counts as failed and the loop continues); and the log is preserved
entry-for-entry — rows are only ever marked, never deleted. -/
theorem c9_undo_batch_processes_batch (log : List LogEntry) (fs : Fs)
    (batch : String) (dry : Bool) :
    List.Sorted UndoManager.undoOrder (UndoManager.get_batch_actions log batch) ∧
    List.Perm (UndoManager.get_batch_actions log batch)
      (log.filter (fun e => e.batch_id == some batch && e.undone == false)) ∧
    ((UndoManager.undo_batch log fs batch dry).1.undone +
      (UndoManager.undo_batch log fs batch dry).1.skipped +
      (UndoManager.undo_batch log fs batch dry).1.failed =
        (UndoManager.get_batch_actions log batch).length) ∧
    logPreserved log (UndoManager.undo_batch log fs batch dry).2.1 := by
  refine ⟨List.sorted_insertionSort _ _, List.perm_insertionSort _ _, ?_, ?_⟩
  · unfold UndoManager.undo_batch
    by_cases h : UndoManager.get_batch_actions log batch = []
    · simp [h]
    · simp only [if_neg h]
      exact undoLoop_counts dry _ log fs
  · unfold UndoManager.undo_batch
    by_cases h : UndoManager.get_batch_actions log batch = []
    · simp only [if_pos h]
      exact logPreserved_refl log
    · simp only [if_neg h]
      exact undoLoop_preserved dry _ log fs

/-- C6 counterexample: the extractor is greedy first-`[`-to-last-`]`, not
first-balanced-block, so prose containing a bracket breaks the parse. -/
theorem c6_prose_bracket_counterexample :
    parse_response
        "[\x7b\"path\":\"C:\\\\a\",\"action\":\"KEEP\",\"confidence\":0.9,\"reason\":\"r\",\"category\":\"c\"\x7d]"
        1 =
      [⟨"C:\\a", "KEEP", ⟨9, 10⟩, "r", "c"⟩] ∧
    parse_response
        ("Note [1]: results below\n" ++
          "[\x7b\"path\":\"C:\\\\a\",\"action\":\"KEEP\",\"confidence\":0.9,\"reason\":\"r\",\"category\":\"c\"\x7d]")
        1 = [] := by
  refine ⟨by decide, by decide⟩

theorem isPrefixOf_append_confined {pat : List Char} (c : Char) (hc : c ∉ pat) :
    ∀ (u l : List Char), l.head? = some c → pat.isPrefixOf (u ++ l) = true →
      pat.isPrefixOf u = true ∧ pat.length ≤ u.length := by
  induction pat with
  | nil => intro u l _ _; exact ⟨by cases u <;> rfl, Nat.zero_le _⟩
  | cons p ps ih =>
    intro u l hl hp
    cases u with
    | nil =>
      cases l with
      | nil => cases hl
      | cons a t =>
        injection hl with ha
        simp only [List.nil_append, List.isPrefixOf, Bool.and_eq_true, beq_iff_eq] at hp
        have hmem : c ∈ p :: ps := by
          rw [← ha, ← hp.1]
          exact List.mem_cons_self p ps
        exact absurd hmem hc
    | cons x u2 =>
      simp only [List.cons_append, List.isPrefixOf, Bool.and_eq_true, beq_iff_eq] at hp
      have hc2 : c ∉ ps := fun hmem => hc (List.mem_cons_of_mem p hmem)
      obtain ⟨h1, h2⟩ := ih hc2 u2 l hl hp.2
      refine ⟨?_, by simpa using Nat.succ_le_succ h2⟩
      simp only [List.isPrefixOf, Bool.and_eq_true, beq_iff_eq]
      exact ⟨hp.1, h1⟩

theorem dropWhile_append_of_head (p : Char → Bool) (c : Char) (hc : p c = false) :
    ∀ (u l : List Char), l.head? = some c →
      (u ++ l).dropWhile p = u.dropWhile p ++ l := by
  intro u
  induction u with
  | nil =>
    intro l hl
    cases l with
    | nil => cases hl
    | cons a t =>
      injection hl with ha
      rw [ha]
      simp [List.dropWhile_cons, hc]
  | cons x u2 ih =>
    intro l hl
    simp only [List.cons_append, List.dropWhile_cons]
    by_cases hx : p x = true
    · simp only [hx, if_true]
      exact ih l hl
    · simp only [Bool.not_eq_true] at hx
      simp [hx]

theorem findIdxOf_append_left (c : Char) :
    ∀ (u t : List Char), c ∉ u → findIdxOf c (u ++ c :: t) = some u.length := by
  intro u
  induction u with
  | nil => intro t _; simp [findIdxOf]
  | cons x u2 ih =>
    intro t hc
    have hx : ¬ (x = c) := fun h => hc (h ▸ List.mem_cons_self x u2)
    have hc2 : c ∉ u2 := fun h => hc (List.mem_cons_of_mem x h)
    simp [findIdxOf, hx, ih t hc2]

theorem rfindIdx_append (c : Char) (x y : List Char) :
    rfindIdx c (x ++ y) =
      match rfindIdx c y with
      | some j => some (x.length + j)
      | none => rfindIdx c x := by
  induction x with
  | nil =>
    cases hy : rfindIdx c y with
    | some j =>
      rw [List.nil_append, hy]
      simp
    | none =>
      rw [List.nil_append, hy]
      exact rfl
  | cons a x2 ih =>
    show (match rfindIdx c (x2 ++ y) with
          | some i => some (i + 1)
          | none => if a = c then some 0 else none) = _
    rw [ih]
    cases hy : rfindIdx c y with
    | some j =>
      show some (x2.length + j + 1) = some ((a :: x2).length + j)
      have harith : x2.length + j + 1 = (a :: x2).length + j := by
        simp only [List.length_cons]
        omega
      rw [harith]
    | none =>
      exact rfl

theorem rfindIdx_eq_none (c : Char) : ∀ (l : List Char), c ∉ l → rfindIdx c l = none := by
  intro l
  induction l with
  | nil => intro _; rfl
  | cons a t ih =>
    intro hc
    have ha : ¬ (a = c) := fun h => hc (h ▸ List.mem_cons_self a t)
    have hc2 : c ∉ t := fun h => hc (List.mem_cons_of_mem a h)
    show (match rfindIdx c t with
          | some i => some (i + 1)
          | none => if a = c then some 0 else none) = none
    rw [ih hc2, if_neg ha]

theorem rfindIdx_of_getLast (c : Char) : ∀ (l : List Char),
    l.getLast? = some c → rfindIdx c l = some (l.length - 1) := by
  intro l
  induction l with
  | nil => intro h; cases h
  | cons a t ih =>
    intro h
    cases t with
    | nil =>
      have ha : a = c := by simpa using h
      simp [rfindIdx, ha]
    | cons b t2 =>
      have h2 : (b :: t2).getLast? = some c := by
        rw [List.getLast?_cons_cons] at h
        exact h
      show (match rfindIdx c (b :: t2) with
            | some i => some (i + 1)
            | none => if a = c then some 0 else none) = _
      rw [ih h2]
      show some ((b :: t2).length - 1 + 1) = some ((a :: b :: t2).length - 1)
      simp [List.length_cons]

theorem extractBlock_of_wrapped (v u w : List Char)
    (hv1 : v.head? = some '[') (hv2 : v.getLast? = some ']')
    (hu : '[' ∉ u) (hw : ']' ∉ w) :
    extractBlock (u ++ v ++ w) = v := by
  obtain ⟨t, rfl⟩ : ∃ t, v = '[' :: t := by
    cases v with
    | nil => cases hv1
    | cons a t =>
      injection hv1 with ha
      exact ⟨t, by rw [ha]⟩
  have hlen2 : 2 ≤ ('[' :: t).length := by
    cases t with
    | nil => simp at hv2
    | cons b t2 => simp [List.length_cons]
  have hfind : findIdxOf '[' (u ++ ('[' :: t) ++ w) = some u.length := by
    have := findIdxOf_append_left '[' u (t ++ w) hu
    simpa [List.append_assoc] using this
  have hrfw : rfindIdx ']' w = none := rfindIdx_eq_none ']' w hw
  have hrfv : rfindIdx ']' ('[' :: t) = some (('[' :: t).length - 1) :=
    rfindIdx_of_getLast ']' _ hv2
  have hrfind : rfindIdx ']' (u ++ ('[' :: t) ++ w) =
      some (u.length + (('[' :: t).length - 1)) := by
    rw [List.append_assoc, rfindIdx_append, rfindIdx_append ']' ('[' :: t) w, hrfw, hrfv]
  rw [extractBlock, hfind, hrfind]
  have hlt : u.length < u.length + (('[' :: t).length - 1) := by
    simp [List.length_cons] at hlen2 ⊢
    omega
  show (if u.length < u.length + (('[' :: t).length - 1) then
      ((u ++ '[' :: t ++ w).drop u.length).take
        (u.length + (('[' :: t).length - 1) - u.length + 1)
    else u ++ '[' :: t ++ w) = '[' :: t
  rw [if_pos hlt]
  have hdrop : (u ++ ('[' :: t) ++ w).drop u.length = ('[' :: t) ++ w := by
    rw [List.append_assoc]
    exact List.drop_left u (('[' :: t) ++ w)
  rw [hdrop]
  have htake : u.length + (('[' :: t).length - 1) - u.length + 1 = ('[' :: t).length := by
    simp [List.length_cons]
  rw [htake]
  exact List.take_left ('[' :: t) w

theorem head?_append_of_head {α : Type} {l : List α} {c : α} (w : List α)
    (h : l.head? = some c) : (l ++ w).head? = some c := by
  cases l with
  | nil => cases h
  | cons a t => simpa using h

theorem stripChars_wrapped (v u w : List Char)
    (hv1 : v.head? = some '[') (hv2 : v.getLast? = some ']')
    (hu : '[' ∉ u) (hw : ']' ∉ w) :
    ∃ u2 w2, stripChars (u ++ v ++ w) = u2 ++ v ++ w2 ∧ '[' ∉ u2 ∧ ']' ∉ w2 := by
  have hsp1 : pyIsSpace '[' = false := by decide
  have hsp2 : pyIsSpace ']' = false := by decide
  have h1 : (u ++ v ++ w).dropWhile pyIsSpace = u.dropWhile pyIsSpace ++ (v ++ w) := by
    rw [List.append_assoc]
    exact dropWhile_append_of_head pyIsSpace '[' hsp1 u (v ++ w) (head?_append_of_head w hv1)
  have hvr : v.reverse.head? = some ']' := by
    rw [List.head?_reverse]
    exact hv2
  have h3 : (w.reverse ++ (v.reverse ++ (u.dropWhile pyIsSpace).reverse)).dropWhile pyIsSpace
      = w.reverse.dropWhile pyIsSpace ++ (v.reverse ++ (u.dropWhile pyIsSpace).reverse) :=
    dropWhile_append_of_head pyIsSpace ']' hsp2 _ _
      (head?_append_of_head (u.dropWhile pyIsSpace).reverse hvr)
  refine ⟨u.dropWhile pyIsSpace, (w.reverse.dropWhile pyIsSpace).reverse, ?_, ?_, ?_⟩
  · show ((((u ++ v ++ w).dropWhile pyIsSpace).reverse).dropWhile pyIsSpace).reverse = _
    rw [h1]
    have h2 : (u.dropWhile pyIsSpace ++ (v ++ w)).reverse =
        w.reverse ++ (v.reverse ++ (u.dropWhile pyIsSpace).reverse) := by
      simp [List.reverse_append]
    rw [h2, h3]
    simp [List.reverse_append, List.append_assoc]
  · intro hmem
    exact hu ((List.dropWhile_sublist pyIsSpace).subset hmem)
  · intro hmem
    rw [List.mem_reverse] at hmem
    have : (']' : Char) ∈ w.reverse := (List.dropWhile_sublist pyIsSpace).subset hmem
    rw [List.mem_reverse] at this
    exact hw this

theorem dropLeadingFence_wrapped (v u w : List Char)
    (hv1 : v.head? = some '[') (hu : '[' ∉ u) (hw : ']' ∉ w) :
    ∃ u2 w2, dropLeadingFence (u ++ v ++ w) = u2 ++ v ++ w2 ∧ '[' ∉ u2 ∧ ']' ∉ w2 := by
  have hsp1 : pyIsSpace '[' = false := by decide
  have hvw : (v ++ w).head? = some '[' := head?_append_of_head w hv1
  rw [dropLeadingFence]
  by_cases hf : ([backtick, backtick, backtick].isPrefixOf (u ++ v ++ w)) = true
  · rw [if_pos hf]
    rw [List.append_assoc] at hf
    have hnb : ('[' : Char) ∉ [backtick, backtick, backtick] := by decide
    obtain ⟨_, hlen3⟩ := isPrefixOf_append_confined '[' hnb u (v ++ w) hvw hf
    have hlen3b : 3 ≤ u.length := by simpa using hlen3
    have hdrop3 : (u ++ v ++ w).drop 3 = u.drop 3 ++ (v ++ w) := by
      rw [List.append_assoc, List.drop_append_eq_append_drop]
      have hz : 3 - u.length = 0 := by omega
      rw [hz, List.drop_zero]
    rw [hdrop3]
    show ∃ u2 w2,
        (if ['j', 's', 'o', 'n'].isPrefixOf (u.drop 3 ++ (v ++ w)) = true then
            (u.drop 3 ++ (v ++ w)).drop 4
          else u.drop 3 ++ (v ++ w)).dropWhile pyIsSpace = u2 ++ v ++ w2 ∧
          '[' ∉ u2 ∧ ']' ∉ w2
    have hu3 : ('[' : Char) ∉ u.drop 3 := fun hm => hu (List.drop_subset 3 u hm)
    by_cases hj : (['j', 's', 'o', 'n'].isPrefixOf (u.drop 3 ++ (v ++ w))) = true
    · rw [if_pos hj]
      have hnj : ('[' : Char) ∉ ['j', 's', 'o', 'n'] := by decide
      obtain ⟨_, hlen4⟩ := isPrefixOf_append_confined '[' hnj (u.drop 3) (v ++ w) hvw hj
      have hlen4b : 4 ≤ (u.drop 3).length := by simpa using hlen4
      have hdrop4 : (u.drop 3 ++ (v ++ w)).drop 4 = (u.drop 3).drop 4 ++ (v ++ w) := by
        rw [List.drop_append_eq_append_drop]
        have hz : 4 - (u.drop 3).length = 0 := by omega
        rw [hz, List.drop_zero]
      rw [hdrop4]
      have hu4 : ('[' : Char) ∉ (u.drop 3).drop 4 := fun hm => hu3 (List.drop_subset 4 _ hm)
      rw [dropWhile_append_of_head pyIsSpace '[' hsp1 _ (v ++ w) hvw]
      refine ⟨((u.drop 3).drop 4).dropWhile pyIsSpace, w, by rw [List.append_assoc], ?_, hw⟩
      intro hm
      exact hu4 ((List.dropWhile_sublist pyIsSpace).subset hm)
    · rw [if_neg hj]
      rw [dropWhile_append_of_head pyIsSpace '[' hsp1 _ (v ++ w) hvw]
      refine ⟨(u.drop 3).dropWhile pyIsSpace, w, by rw [List.append_assoc], ?_, hw⟩
      intro hm
      exact hu3 ((List.dropWhile_sublist pyIsSpace).subset hm)
  · rw [if_neg hf]
    exact ⟨u, w, rfl, hu, hw⟩

theorem dropTrailingFence_wrapped (v u w : List Char)
    (hv2 : v.getLast? = some ']') (hu : '[' ∉ u) (hw : ']' ∉ w) :
    ∃ u2 w2, dropTrailingFence (u ++ v ++ w) = u2 ++ v ++ w2 ∧ '[' ∉ u2 ∧ ']' ∉ w2 := by
  have hsp2 : pyIsSpace ']' = false := by decide
  have hvr : v.reverse.head? = some ']' := by
    rw [List.head?_reverse]
    exact hv2
  have hvur : (v.reverse ++ u.reverse).head? = some ']' :=
    head?_append_of_head u.reverse hvr
  rw [dropTrailingFence]
  by_cases hf : ([backtick, backtick, backtick].isSuffixOf (u ++ v ++ w)) = true
  · rw [if_pos hf]
    rw [List.isSuffixOf] at hf
    have hrev : (u ++ v ++ w).reverse = w.reverse ++ (v.reverse ++ u.reverse) := by
      simp [List.reverse_append]
    rw [hrev] at hf
    have hnb : (']' : Char) ∉ ([backtick, backtick, backtick] : List Char).reverse := by decide
    obtain ⟨_, hlen3⟩ :=
      isPrefixOf_append_confined ']' hnb w.reverse (v.reverse ++ u.reverse) hvur hf
    have hlen3b : 3 ≤ w.length := by simpa using hlen3
    have hul : (u ++ v ++ w).length = (u ++ v).length + w.length := by
      rw [List.length_append]
    have htake : (u ++ v ++ w).take ((u ++ v ++ w).length - 3) =
        (u ++ v) ++ w.take (w.length - 3) := by
      rw [List.take_append_eq_append_take]
      have h1 : (u ++ v).length ≤ (u ++ v ++ w).length - 3 := by omega
      rw [List.take_of_length_le h1]
      have h2 : (u ++ v ++ w).length - 3 - (u ++ v).length = w.length - 3 := by omega
      rw [h2]
    rw [htake]
    have hwt : (']' : Char) ∉ w.take (w.length - 3) := fun hm =>
      hw (List.take_subset _ _ hm)
    have hrev2 : ((u ++ v) ++ w.take (w.length - 3)).reverse =
        (w.take (w.length - 3)).reverse ++ (v.reverse ++ u.reverse) := by
      simp [List.reverse_append]
    rw [hrev2, dropWhile_append_of_head pyIsSpace ']' hsp2 _ _ hvur]
    refine ⟨u, (((w.take (w.length - 3)).reverse).dropWhile pyIsSpace).reverse, ?_, hu, ?_⟩
    · simp [List.reverse_append, List.append_assoc]
    · intro hm
      rw [List.mem_reverse] at hm
      have hmm : (']' : Char) ∈ (w.take (w.length - 3)).reverse :=
        (List.dropWhile_sublist pyIsSpace).subset hm
      rw [List.mem_reverse] at hmm
      exact hwt hmm
  · rw [if_neg hf]
    exact ⟨u, w, rfl, hu, hw⟩

theorem cleaned_extract (v u w : List Char)
    (hv1 : v.head? = some '[') (hv2 : v.getLast? = some ']')
    (hu : '[' ∉ u) (hw : ']' ∉ w) :
    extractBlock (stripChars (dropTrailingFence (dropLeadingFence
      (stripChars (u ++ v ++ w))))) = v := by
  obtain ⟨u1, w1, he1, hu1, hw1⟩ := stripChars_wrapped v u w hv1 hv2 hu hw
  rw [he1]
  obtain ⟨u2, w2, he2, hu2, hw2⟩ := dropLeadingFence_wrapped v u1 w1 hv1 hu1 hw1
  rw [he2]
  obtain ⟨u3, w3, he3, hu3, hw3⟩ := dropTrailingFence_wrapped v u2 w2 hv2 hu2 hw2
  rw [he3]
  obtain ⟨u4, w4, he4, hu4, hw4⟩ := stripChars_wrapped v u3 w3 hv1 hv2 hu3 hw3
  rw [he4]
  exact extractBlock_of_wrapped v u4 w4 hv1 hv2 hu4 hw4

/-- **C6** (amended): wrapping a JSON array (first character `[`, last
character `]`) in surrounding prose and markdown fences leaves the parse
unchanged, provided the leading prose contains no `[` and the trailing
prose contains no `]`; under those side conditions `_parse_response`
returns exactly the parse of the bare array.  (Without the side
conditions the claim is false: the extractor is greedy
first-`[`-to-last-`]`, see the counterexample.) -/
theorem c6_fenced_wrap_preserves_parse (p1 arr p2 : String) (n m : Nat)
    (h1 : '[' ∉ p1.data) (h2 : ']' ∉ p2.data)
    (h3 : arr.data.head? = some '[') (h4 : arr.data.getLast? = some ']') :
    parse_response (p1 ++ arr ++ p2) n = parse_response arr m := by
  have hdata : (p1 ++ arr ++ p2).data = p1.data ++ arr.data ++ p2.data := by
    simp [String.data_append]
  have hL : extractBlock (stripChars (dropTrailingFence (dropLeadingFence
      (stripChars ((p1 ++ arr ++ p2).data))))) = arr.data := by
    rw [hdata]
    exact cleaned_extract arr.data p1.data p2.data h3 h4 h1 h2
  have hR : extractBlock (stripChars (dropTrailingFence (dropLeadingFence
      (stripChars (arr.data))))) = arr.data := by
    have hc := cleaned_extract arr.data [] [] h3 h4 (by simp) (by simp)
    simpa using hc
  simp only [parse_response]
  rw [hL, hR]

/-- Witness for C6: the spec's fenced-response scenario — prose, a
```json fence, a trailing comma inside the array, a closing fence and
trailing prose — parses exactly as the bare array does. -/
theorem c6_fenced_wrap_witness :
    ('[' ∉ ("Here are the results:\n```json\n" : String).data) ∧
    (']' ∉ ("\n```\nLet me know." : String).data) ∧
    (("[\x7b\"path\":\"C:\\\\a\",\"action\":\"KEEP\",\"confidence\":0.9,\"reason\":\"r\",\"category\":\"c\"\x7d,]" : String).data.head? = some '[') ∧
    (("[\x7b\"path\":\"C:\\\\a\",\"action\":\"KEEP\",\"confidence\":0.9,\"reason\":\"r\",\"category\":\"c\"\x7d,]" : String).data.getLast? = some ']') ∧
    parse_response
        ("Here are the results:\n```json\n" ++
          "[\x7b\"path\":\"C:\\\\a\",\"action\":\"KEEP\",\"confidence\":0.9,\"reason\":\"r\",\"category\":\"c\"\x7d,]" ++
          "\n```\nLet me know.") 1 =
      parse_response
        "[\x7b\"path\":\"C:\\\\a\",\"action\":\"KEEP\",\"confidence\":0.9,\"reason\":\"r\",\"category\":\"c\"\x7d,]" 1 ∧
    parse_response
        "[\x7b\"path\":\"C:\\\\a\",\"action\":\"KEEP\",\"confidence\":0.9,\"reason\":\"r\",\"category\":\"c\"\x7d,]" 1 =
      [⟨"C:\\a", "KEEP", ⟨9, 10⟩, "r", "c"⟩] :=
  ⟨by decide, by decide, by decide, by decide,
    c6_fenced_wrap_preserves_parse
      "Here are the results:\n```json\n"
      "[\x7b\"path\":\"C:\\\\a\",\"action\":\"KEEP\",\"confidence\":0.9,\"reason\":\"r\",\"category\":\"c\"\x7d,]"
      "\n```\nLet me know." 1 1 (by decide) (by decide) (by decide) (by decide),
    by decide⟩

end DriveMindr
